import Mathlib

/-!
Shallow embedding of the contacts-database handler of the Jmail repository
(`src/jmailer/db_handler.py`), together with proofs about its record
normalizer (`details_to_df`), column cleaner (`clean_df`) and three-way
reconciler (`update_dataframe_conditionally`).

A pandas `DataFrame` is modelled as an ordered column list plus positional
rows; a missing value (`NaN`) is the cell `none`.  Python in-place mutation
(`inplace=True`) is modelled by returning the post-call state of the mutated
object explicitly.  Exceptions raised during per-entry record construction
are modelled with `Except`.
-/

namespace Jmail

/-- A cell of a dataframe; `none` models a pandas `NaN` / missing value. -/
abbrev Cell := Option String

/-- A dataframe row, positionally aligned with the column list of its frame. -/
abbrev Row := List Cell

/-- A pandas `DataFrame`: an ordered column list and a list of positional rows. -/
structure DF where
  cols : List String
  rows : List Row
deriving DecidableEq, Repr

/-- Value of column `c` in row `r` (the row being aligned with `cols`):
scan the column list and take the cell at the first position whose column
name is `c`; `none` when the column is absent. -/
def cellAt : List String → Row → String → Cell
  | [], _, _ => none
  | c0 :: cs, r, c => if c0 = c then r.head?.getD none else cellAt cs r.tail c

/-- The tuple of merge-key cells of a row (`keys` are the merge columns). -/
def rowKey (keys : List String) (cols : List String) (r : Row) : List Cell :=
  keys.map (cellAt cols r)

/-! ### Column cleaner (`DB_handler.clean_df`, lines 255–279)

The regex substitution `re.sub(pattern, "", name)` is passed in as the
function `sub : String → String` (the action of the pattern).  The reconciler
always uses the pattern `"_new|_old"`, whose action is `stripSuffixes` below.

`clean_df` mutates the frame passed to it (`drop(..., inplace=True)` and
`rename(..., inplace=True)`); the embedding returns a pair
`(state of the caller's frame after the call, returned frame)`. -/

/-- Action of `re.sub("_new|_old", "", s)` on the character list of `s`:
scan left to right, removing each leftmost occurrence of `_new` or `_old`. -/
def stripSuffixChars : List Char → List Char
  | '_' :: 'n' :: 'e' :: 'w' :: rest => stripSuffixChars rest
  | '_' :: 'o' :: 'l' :: 'd' :: rest => stripSuffixChars rest
  | c :: rest => c :: stripSuffixChars rest
  | [] => []

/-- Action of `re.sub("_new|_old", "", s)` on a string. -/
def stripSuffixes (s : String) : String := String.mk (stripSuffixChars s.data)

/-- The column-drop step `df.drop(columns=drop_columns, inplace=True)`:
remove every column whose name is listed in `dcs`, together with the
corresponding cell of every row. -/
def dropCols (dcs : List String) (df : DF) : DF :=
  ⟨df.cols.filter (fun c => !(dcs.contains c)),
   df.rows.map (fun r => ((df.cols.zip r).filter (fun q => !(dcs.contains q.1))).map Prod.snd)⟩

/-- The rename step (lines 273–276): every column name is replaced by the
result of the pattern substitution; rows are untouched. -/
def renameCols (sub : String → String) (df : DF) : DF :=
  ⟨df.cols.map sub, df.rows⟩

/-- Column selection `df[perm]`: reindex the frame to the column list `perm`. -/
def selectCols (perm : List String) (df : DF) : DF :=
  ⟨perm, df.rows.map (fun r => perm.map (cellAt df.cols r))⟩

/-- `DB_handler.clean_df` (lines 255–279).  Drops `drop_columns` and renames
the remaining columns in place, then optionally reindexes to
`permuted_columns`.  Result: `(caller's frame after the in-place drop and
rename, returned frame)`; the two coincide when `permuted_columns` is
`none`, since `df = df[permuted_columns]` is only executed otherwise. -/
def clean_df (df : DF) (drop_columns : List String) (sub : String → String)
    (permuted_columns : Option (List String)) : DF × DF :=
  let df1 := renameCols sub (dropCols drop_columns df)
  match permuted_columns with
  | none => (df1, df1)
  | some perm => (df1, selectCols perm df1)

/-! ### pandas merge (`new_df.merge(original_df, how=..., on=..., suffixes=...)`)

Only what lines 320–321 use is embedded: a two-frame merge on key columns
`keys` with collision suffixes `s0` (left) and `s1` (right).  Row order of
the outer merge is modelled as left rows (in order) followed by unmatched
right rows; no theorem below depends on the order of rows inside a merge. -/

/-- Output columns of a merge: left columns (a non-key column colliding with
a right column gets suffix `s0`), then right non-key columns (suffixed with
`s1` when colliding with a left column). -/
def mergeCols (keys : List String) (s0 s1 : String) (lc rc : List String) : List String :=
  lc.map (fun c => if keys.contains c then c else if rc.contains c then c ++ s0 else c)
  ++ (rc.filter (fun c => !(keys.contains c))).map
      (fun c => if lc.contains c then c ++ s1 else c)

/-- Right-frame rows whose merge key equals that of the left row `l`. -/
def rightMatches (keys : List String) (left right : DF) (l : Row) : List Row :=
  right.rows.filter (fun r => rowKey keys right.cols r == rowKey keys left.cols l)

/-- Combined row for a matched left/right pair: all left cells, then the
right cells of the non-key right columns. -/
def joinRow (keys : List String) (rc : List String) (l r : Row) : Row :=
  l ++ (rc.filter (fun c => !(keys.contains c))).map (cellAt rc r)

/-- Outer-merge row for a left row with no right match: left cells, then
`NaN` for every non-key right column. -/
def leftOnlyRow (keys : List String) (rc : List String) (l : Row) : Row :=
  l ++ (rc.filter (fun c => !(keys.contains c))).map (fun _ => (none : Cell))

/-- Outer-merge row for a right row with no left match: key cells in the
left key positions, `NaN` for every non-key left column, then the right
cells of the non-key right columns. -/
def rightOnlyRow (keys : List String) (lc rc : List String) (r : Row) : Row :=
  lc.map (fun c => if keys.contains c then cellAt rc r c else none)
  ++ (rc.filter (fun c => !(keys.contains c))).map (cellAt rc r)

/-- `left.merge(right, how="inner", on=keys, suffixes=(s0, s1))` (line 321). -/
def mergeInner (keys : List String) (s0 s1 : String) (left right : DF) : DF :=
  ⟨mergeCols keys s0 s1 left.cols right.cols,
   left.rows.flatMap (fun l =>
     (rightMatches keys left right l).map (joinRow keys right.cols l))⟩

/-- `left.merge(right, how="outer", on=keys, suffixes=(s0, s1))` (line 320). -/
def mergeOuter (keys : List String) (s0 s1 : String) (left right : DF) : DF :=
  ⟨mergeCols keys s0 s1 left.cols right.cols,
   (left.rows.flatMap (fun l =>
      let ms := rightMatches keys left right l
      if ms.isEmpty then [leftOnlyRow keys right.cols l]
      else ms.map (joinRow keys right.cols l)))
   ++ (right.rows.filter (fun r =>
        left.rows.all (fun l =>
          !(rowKey keys left.cols l == rowKey keys right.cols r)))).map
      (rightOnlyRow keys left.cols right.cols)⟩

/-- `merged_df[merged_df[cs].isna().all(axis=1)]`: keep the rows whose cells
are `NaN` in every column listed in `cs` (lines 325, 330). -/
def filterAllNa (cs : List String) (df : DF) : DF :=
  ⟨df.cols, df.rows.filter (fun r => cs.all (fun c => (cellAt df.cols r c).isNone))⟩

/-! ### Three-way reconciler (`DB_handler.update_dataframe_conditionally`,
lines 282–341) -/

def SUFFIX_NEW : String := "_new"

def SUFFIX_OLD : String := "_old"

/-- The "new" bucket (lines 323–326): outer-merge rows whose old-side
fixed/update cells are all `NaN`, cleaned of the old-side columns and
reindexed to the original column order. -/
def new_data_of (new_df original_df : DF)
    (merge_columns fixed_columns update_columns : List String) : DF :=
  let merged_df := mergeOuter merge_columns SUFFIX_NEW SUFFIX_OLD new_df original_df
  let drop_columns := (fixed_columns ++ update_columns).map (fun c => c ++ SUFFIX_OLD)
  (clean_df (filterAllNa drop_columns merged_df) drop_columns stripSuffixes
    (some original_df.cols)).2

/-- The "no-change" bucket (lines 328–331): outer-merge rows whose new-side
fixed/update cells are all `NaN`, cleaned of the new-side columns. -/
def no_change_data_of (new_df original_df : DF)
    (merge_columns fixed_columns update_columns : List String) : DF :=
  let merged_df := mergeOuter merge_columns SUFFIX_NEW SUFFIX_OLD new_df original_df
  let drop_columns := (fixed_columns ++ update_columns).map (fun c => c ++ SUFFIX_NEW)
  (clean_df (filterAllNa drop_columns merged_df) drop_columns stripSuffixes
    (some original_df.cols)).2

/-- The "updated" bucket (lines 321, 333–335).  Line 334 computes
`drop_columns = [col + SUFFIXES[0] for col in fixed_columns] + [col +
SUFFIXES[1] for col in update_columns]` with `SUFFIXES = ("_new", "_old")`
(line 309): each fixed column enters the drop list with suffix `_new`
(`SUFFIXES[0]`) and each update column with suffix `_old` (`SUFFIXES[1]`).
The inner-merge rows therefore lose the new-side fixed cells and the
old-side update cells, keeping the old-side fixed cells and the new-side
update cells: fixed values come from the original row and update values
from the new row, as in the worked example of spec §8. -/
def update_data_of (new_df original_df : DF)
    (merge_columns fixed_columns update_columns : List String) : DF :=
  let ud := mergeInner merge_columns SUFFIX_NEW SUFFIX_OLD new_df original_df
  let drop_columns := fixed_columns.map (fun c => c ++ SUFFIX_NEW)
    ++ update_columns.map (fun c => c ++ SUFFIX_OLD)
  (clean_df ud drop_columns stripSuffixes (some original_df.cols)).2

/-- `DB_handler.update_dataframe_conditionally` (lines 282–341).
Line 316 first removes from `update_columns` every column already present in
`merge_columns`; the three buckets are concatenated in the order
new, no-change, updated (line 337).  Line 339 computes
`updated_df.sort_values(sort_by, ascending=ascending)` but discards the
resulting frame (no assignment, no `inplace`), so `sort_by` and `ascending`
have no effect on the returned frame. -/
def update_dataframe_conditionally (new_df original_df : DF)
    (merge_columns fixed_columns update_columns : List String)
    (sort_by : Option (List String)) (ascending : Bool) : DF :=
  let update_columns := update_columns.filter (fun c => !(merge_columns.contains c))
  let new_data := new_data_of new_df original_df merge_columns fixed_columns update_columns
  let no_change_data :=
    no_change_data_of new_df original_df merge_columns fixed_columns update_columns
  let update_data :=
    update_data_of new_df original_df merge_columns fixed_columns update_columns
  ⟨new_data.cols, new_data.rows ++ no_change_data.rows ++ update_data.rows⟩

/-! ### Sortedness check used to settle the discarded-sort claim -/

/-- Lexicographic comparison of strings by character code, as Python
compares strings. -/
def strLt : List Char → List Char → Bool
  | [], [] => false
  | [], _ :: _ => true
  | _ :: _, [] => false
  | a :: as, b :: bs => decide (a.toNat < b.toNat) || (a == b && strLt as bs)

/-- Strict order on cells as pandas `sort_values` compares them: strings
lexicographically, `NaN` after every value. -/
def cellLt : Cell → Cell → Bool
  | some a, some b => strLt a.data b.data
  | some _, none => true
  | none, _ => false

/-- Lexicographic strict order on merge-key tuples. -/
def keyLtLex : List Cell → List Cell → Bool
  | [], [] => false
  | [], _ :: _ => true
  | _ :: _, [] => false
  | a :: as, b :: bs => cellLt a b || (a == b && keyLtLex as bs)

/-- Rows are in descending order by the key columns `keys`. -/
def rowsSortedDesc (keys : List String) (cols : List String) : List Row → Bool
  | [] => true
  | [_] => true
  | r1 :: r2 :: rest =>
    !(keyLtLex (rowKey keys cols r1) (rowKey keys cols r2))
    && rowsSortedDesc keys cols (r2 :: rest)

/-- The frame is sorted in descending order by the key columns `keys`. -/
def sortedByDesc (keys : List String) (df : DF) : Bool :=
  rowsSortedDesc keys df.cols df.rows

/-! ### Record normalizer (`DB_handler.details_to_df`, lines 219–252) -/

/-- A calendar date, carried as its preformatted strftime pieces
(`%Y`, `%m`, `%d`). -/
structure Date where
  y : String
  m : String
  d : String
deriving DecidableEq, Repr

/-- `datetime.today().strftime("%Y-%m-%d")`. -/
def fmtYmd (t : Date) : String := t.y ++ "-" ++ t.m ++ "-" ++ t.d

/-- `datetime.today().strftime("Y-%m-%d")` as written on line 243: the `%`
before `Y` is missing in the source, so the format yields a literal `Y`
instead of the year. -/
def fmtYmdTypo (t : Date) : String := "Y-" ++ t.m ++ "-" ++ t.d

/-- Fields of a well-formed per-recipient detail mapping; each field is
`none` when absent, in which case the record construction defaults it to
the empty string. -/
structure DetailFields where
  first_name : Option String
  last_name : Option String
  company_name : Option String
deriving DecidableEq, Repr

/-- The detail value attached to one recipient: `none` models a malformed
detail, i.e. one whose field access raises inside the `try` block. -/
abbrev Detail := Option DetailFields

/-- One row of the batch built by `details_to_df`, with the fixed field
names of lines 236–244. -/
structure ContactRecord where
  CREATEDATETIME : String
  FIRST_NAME : String
  LAST_NAME : String
  EMAIL : String
  COMPANY : String
  LAST_OUTREACH : String
  FIRST_OUTREACH : String
deriving DecidableEq, Repr

/-- Construction of the record for one entry (the body of the `try` block,
lines 236–244); a malformed detail raises, modelled as `Except.error`. -/
def mkRecord (today : Date) (key : String) (detail : Detail) :
    Except String ContactRecord :=
  match detail with
  | none => Except.error "detail access raised"
  | some d => Except.ok {
      CREATEDATETIME := fmtYmd today
      FIRST_NAME := d.first_name.getD ""
      LAST_NAME := d.last_name.getD ""
      EMAIL := key
      COMPANY := d.company_name.getD ""
      LAST_OUTREACH := fmtYmd today
      FIRST_OUTREACH := fmtYmdTypo today }

/-- The log message of line 246 for a caught per-entry failure. -/
def logMsgFor (key : String) (e : String) : String :=
  "No response recorded for " ++ key ++ ". " ++ e

/-- The per-entry loop of `details_to_df` (lines 234–247): first component
is `json_data` (key and record of every entry whose construction succeeded,
in input order), second component the log of caught per-entry failures. -/
def details_loop (today : Date) :
    List (String × Detail) → List (String × ContactRecord) × List String
  | [] => ([], [])
  | (key, detail) :: rest =>
    match mkRecord today key detail with
    | Except.ok r =>
      let p := details_loop today rest
      ((key, r) :: p.1, p.2)
    | Except.error e =>
      let p := details_loop today rest
      (p.1, logMsgFor key e :: p.2)

/-- Column order of the frame built from `json_data` (line 250). -/
def detailsCols : List String :=
  ["CREATEDATETIME", "FIRST_NAME", "LAST_NAME", "EMAIL", "COMPANY",
   "LAST_OUTREACH", "FIRST_OUTREACH"]

/-- The dataframe row of one contact record. -/
def recordRow (r : ContactRecord) : Row :=
  [some r.CREATEDATETIME, some r.FIRST_NAME, some r.LAST_NAME, some r.EMAIL,
   some r.COMPANY, some r.LAST_OUTREACH, some r.FIRST_OUTREACH]

/-- `DB_handler.details_to_df` (lines 219–252).  First component: the value
returned to the caller; second: the accumulated log messages.  `df` is bound
to `None` on line 232 and never reassigned — `response_df` (lines 249–251)
is built from `json_data` and then discarded, so the returned value is the
`None` sentinel on every input. -/
def details_to_df (today : Date) (data : List (String × Detail)) :
    Option DF × List String :=
  let df : Option DF := none
  let p := details_loop today data
  let _response_df : Option DF :=
    if p.1.length > 0 then some ⟨detailsCols, p.1.map (fun kr => recordRow kr.2)⟩
    else none
  (df, p.2)

/-- Write-back decision of `DB_handler.db_contacts_updater` (lines 380–386):
`some frame` is the frame pushed to the sink via `write_to_googlesheets`;
`none` means the sink is not called ("No new data to update!").  The
surrounding Google-sheets I/O is an external collaborator and is not
modelled. -/
def db_contacts_updater (today : Date) (original_df : DF)
    (merge_columns fixed_columns update_columns : List String)
    (sort_by : Option (List String)) (details : List (String × Detail)) :
    Option DF :=
  match (details_to_df today details).1 with
  | some new_data =>
    some (update_dataframe_conditionally new_data original_df merge_columns
      fixed_columns update_columns sort_by false)
  | none => none

/-! ## Abstract value-carrying tables

The reconciliation claims quantify over input tables with the reconciler's
schema: merge-key columns, fixed columns and update columns, with all fixed
and update values present.  `mkTable` builds exactly those tables from
abstract rows. -/

/-- Abstract input row for the reconciler: merge-key, fixed-column and
update-column values, all non-null. -/
structure ARow where
  key : List String
  fixed : List String
  upd : List String
deriving DecidableEq, Repr

/-- The dataframe row of an abstract row, aligned with the column list
`merge_columns ++ (fixed_columns ++ update_columns)`. -/
def ARow.toRow (t : ARow) : Row :=
  t.key.map some ++ (t.fixed ++ t.upd).map some

/-- The table with columns `mc ++ fc ++ uc` holding the given abstract rows. -/
def mkTable (mc fc uc : List String) (ts : List ARow) : DF :=
  ⟨mc ++ (fc ++ uc), ts.map ARow.toRow⟩

/-- No row of `ts` has merge key `k`. -/
def keyAbsent (ts : List ARow) (k : List String) : Bool :=
  ts.all (fun t => !(t.key == k))

/-- Column list of the merged frame of two canonical-schema tables: the
merge keys, then the suffixed new-side columns, then the suffixed old-side
columns. -/
def bigCols (mc fc uc : List String) : List String :=
  (mc ++ (fc ++ uc).map (· ++ SUFFIX_NEW)) ++ (fc ++ uc).map (· ++ SUFFIX_OLD)

/-- Rows of the outer merge of two canonical-schema tables: for every new
row, its match combinations or a `NaN`-padded left-only row; then the
`NaN`-padded unmatched original rows. -/
def outerRowsSpec (fc uc : List String) (ns os : List ARow) : List Row :=
  (ns.flatMap (fun nt =>
    if keyAbsent os nt.key
    then [nt.toRow ++ List.replicate (fc ++ uc).length (none : Cell)]
    else (os.filter (fun ot => ot.key == nt.key)).map
      (fun ot => nt.toRow ++ (ot.fixed ++ ot.upd).map some)))
  ++ (os.filter (fun ot => keyAbsent ns ot.key)).map
    (fun ot => (ot.key.map some ++ List.replicate (fc ++ uc).length (none : Cell))
      ++ (ot.fixed ++ ot.upd).map some)

/-- Rows of the inner merge of two canonical-schema tables. -/
def innerRowsSpec (ns os : List ARow) : List Row :=
  ns.flatMap (fun nt => (os.filter (fun ot => ot.key == nt.key)).map
    (fun ot => nt.toRow ++ (ot.fixed ++ ot.upd).map some))

/-- Well-formedness of a merge configuration, as the reconciler assumes
(spec §4.3/§7: callers must guarantee the canonical schema): column names
are pairwise distinct, stay distinct after the merge attaches the suffixes,
are unchanged by the suffix-stripping rename, strip back to themselves
after suffixing, and at least one fixed or update column exists. -/
abbrev WfCols (mc fc uc : List String) : Prop :=
  (mc ++ (fc ++ uc)).Nodup
  ∧ (bigCols mc fc uc).Nodup
  ∧ (∀ c ∈ mc ++ (fc ++ uc), stripSuffixes c = c)
  ∧ (∀ c ∈ fc ++ uc, stripSuffixes (c ++ SUFFIX_NEW) = c)
  ∧ (∀ c ∈ fc ++ uc, stripSuffixes (c ++ SUFFIX_OLD) = c)
  ∧ fc ++ uc ≠ []

/-- Every abstract row has cell blocks matching the column blocks. -/
abbrev WfRows (mc fc uc : List String) (ts : List ARow) : Prop :=
  ∀ t ∈ ts, t.key.length = mc.length ∧ t.fixed.length = fc.length
    ∧ t.upd.length = uc.length

/-- Merge keys are unique within the table. -/
abbrev UniqueKeys (ts : List ARow) : Prop := (ts.map ARow.key).Nodup

/-! ## Helper lemmas on cell lookup and row surgery -/

theorem cellAt_append_of_mem {L1 : List String} {r1 : Row} (L2 : List String)
    (r2 : Row) {c : String} (h : r1.length = L1.length) (hc : c ∈ L1) :
    cellAt (L1 ++ L2) (r1 ++ r2) c = cellAt L1 r1 c := by
  induction L1 generalizing r1 with
  | nil => cases hc
  | cons c0 cs ih =>
    cases r1 with
    | nil => simp at h
    | cons a r1 =>
      by_cases hc0 : c0 = c
      · simp [cellAt, hc0]
      · have hmem : c ∈ cs := by
          rcases List.mem_cons.mp hc with h1 | h1
          · exact absurd h1.symm hc0
          · exact h1
        simp only [List.cons_append, cellAt, hc0, if_false, List.tail_cons]
        exact ih (by simpa using h) hmem

theorem cellAt_append_of_not_mem {L1 : List String} {r1 : Row} (L2 : List String)
    (r2 : Row) {c : String} (h : r1.length = L1.length) (hc : c ∉ L1) :
    cellAt (L1 ++ L2) (r1 ++ r2) c = cellAt L2 r2 c := by
  induction L1 generalizing r1 with
  | nil =>
    have : r1 = [] := List.length_eq_zero.mp h
    subst this; rfl
  | cons c0 cs ih =>
    cases r1 with
    | nil => simp at h
    | cons a r1 =>
      have hc0 : c0 ≠ c := fun e => hc (e ▸ List.mem_cons_self c0 cs)
      have hcs : c ∉ cs := fun e => hc (List.mem_cons_of_mem _ e)
      simp only [List.cons_append, cellAt, hc0, if_false, List.tail_cons]
      exact ih (by simpa using h) hcs

theorem map_cellAt_self {L : List String} {r : Row} (hn : L.Nodup)
    (h : r.length = L.length) : L.map (cellAt L r) = r := by
  induction L generalizing r with
  | nil =>
    have : r = [] := List.length_eq_zero.mp h
    subst this; rfl
  | cons c0 cs ih =>
    cases r with
    | nil => simp at h
    | cons a r =>
      have hn0 : c0 ∉ cs := (List.nodup_cons.mp hn).1
      have hns : cs.Nodup := (List.nodup_cons.mp hn).2
      simp only [List.map_cons]
      refine congrArg₂ _ ?_ ?_
      · simp [cellAt]
      · calc cs.map (cellAt (c0 :: cs) (a :: r))
            = cs.map (cellAt cs r) := by
              refine List.map_congr_left ?_
              intro c hc
              have hc0 : c0 ≠ c := fun e => hn0 (e ▸ hc)
              simp [cellAt, hc0]
          _ = r := ih hns (by simpa using h)

theorem cellAt_map_some_isSome (M : List String) (vals : List String)
    {c : String} (h : vals.length = M.length) (hc : c ∈ M) :
    (cellAt M (vals.map some) c).isSome = true := by
  induction M generalizing vals with
  | nil => cases hc
  | cons c0 cs ih =>
    cases vals with
    | nil => simp at h
    | cons v vals =>
      by_cases hc0 : c0 = c
      · simp [cellAt, hc0]
      · have hmem : c ∈ cs := by
          rcases List.mem_cons.mp hc with h1 | h1
          · exact absurd h1.symm hc0
          · exact h1
        simp only [List.map_cons, cellAt, hc0, if_false, List.tail_cons]
        exact ih vals (by simpa using h) hmem

theorem cellAt_replicate_none (M : List String) (n : Nat) (c : String) :
    cellAt M (List.replicate n (none : Cell)) c = none := by
  induction M generalizing n with
  | nil => rfl
  | cons c0 cs ih =>
    by_cases hc0 : c0 = c
    · simp only [cellAt, if_pos hc0, List.head?_replicate]
      cases n <;> rfl
    · simp only [cellAt, hc0, if_false, List.tail_replicate]
      exact ih (n - 1)

theorem zipFilterSnd_append {cols1 cols2 : List String} {r1 r2 : Row}
    (p : String × Cell → Bool) (h : cols1.length = r1.length) :
    (((cols1 ++ cols2).zip (r1 ++ r2)).filter p).map Prod.snd
      = ((cols1.zip r1).filter p).map Prod.snd
        ++ ((cols2.zip r2).filter p).map Prod.snd := by
  rw [List.zip_append h, List.filter_append, List.map_append]

theorem zipFilterSnd_keep {cols : List String} {r : Row} {dcs : List String}
    (h : r.length = cols.length)
    (hall : ∀ c ∈ cols, dcs.contains c = false) :
    ((cols.zip r).filter (fun q => !(dcs.contains q.1))).map Prod.snd = r := by
  have heq : (cols.zip r).filter (fun q => !(dcs.contains q.1)) = cols.zip r := by
    rw [List.filter_eq_self]
    intro q hq
    rw [hall _ (List.of_mem_zip hq).1]
    rfl
  rw [heq]
  exact List.map_snd_zip _ _ h.le

theorem zipFilterSnd_drop {cols : List String} {r : Row} {dcs : List String}
    (hall : ∀ c ∈ cols, dcs.contains c = true) :
    ((cols.zip r).filter (fun q => !(dcs.contains q.1))).map Prod.snd = [] := by
  have heq : (cols.zip r).filter (fun q => !(dcs.contains q.1)) = [] := by
    rw [List.filter_eq_nil_iff]
    intro q hq
    rw [hall _ (List.of_mem_zip hq).1]
    simp
  rw [heq]; rfl

theorem beq_map_some (xs ys : List String) :
    (xs.map some == ys.map some) = (xs == ys) := by
  by_cases h : xs = ys
  · simp [h]
  · have hm : xs.map some ≠ ys.map some :=
      fun e => h (List.map_injective_iff.mpr (Option.some_injective String) e)
    simp [h, hm]

theorem flatMap_if_singleton {α β : Type} (l : List α) (p : α → Bool)
    (f : α → β) :
    (l.flatMap (fun a => if p a then [f a] else [])) = (l.filter p).map f := by
  induction l with
  | nil => rfl
  | cons a rest ih =>
    by_cases h : p a <;> simp [List.filter_cons, h, ih]

theorem pairwise_of_length_le_one {α : Type} {R : α → α → Prop} {l : List α}
    (h : l.length ≤ 1) : l.Pairwise R := by
  match l with
  | [] => exact List.Pairwise.nil
  | [a] => exact List.pairwise_singleton R a
  | a :: b :: rest => simp at h

/-! ## Key-lookup lemmas under unique keys -/

theorem keyAbsent_iff {ts : List ARow} {k : List String} :
    keyAbsent ts k = true ↔ ∀ t ∈ ts, t.key ≠ k := by
  simp [keyAbsent]

theorem keyAbsent_eq_false {ts : List ARow} {k : List String} :
    keyAbsent ts k = false ↔ ∃ t ∈ ts, t.key = k := by
  simp [keyAbsent]

theorem filter_key_isEmpty_eq_keyAbsent (os : List ARow) (k : List String) :
    (os.filter (fun ot => ot.key == k)).isEmpty = keyAbsent os k := by
  induction os with
  | nil => rfl
  | cons ot rest ih =>
    by_cases h : ot.key = k
    · simp [List.filter_cons, h, keyAbsent]
    · have hb : (ot.key == k) = false := beq_eq_false_iff_ne.mpr h
      simpa [List.filter_cons, hb, keyAbsent] using ih

theorem filter_key_length {os : List ARow} (huo : UniqueKeys os)
    (k : List String) :
    (os.filter (fun ot => ot.key == k)).length
      = if keyAbsent os k then 0 else 1 := by
  induction os with
  | nil => rfl
  | cons ot rest ih =>
    have hrest : UniqueKeys rest := (List.nodup_cons.mp huo).2
    have hnotin : ot.key ∉ rest.map ARow.key := (List.nodup_cons.mp huo).1
    by_cases h : ot.key = k
    · have hfil : rest.filter (fun o => o.key == k) = [] := by
        rw [List.filter_eq_nil_iff]
        intro t ht he
        simp only [beq_iff_eq] at he
        have : ot.key ∈ rest.map ARow.key := by
          rw [h, ← he]; exact List.mem_map_of_mem ARow.key ht
        exact hnotin this
      simp [List.filter_cons, h, hfil, keyAbsent]
    · have habs2 : keyAbsent (ot :: rest) k = keyAbsent rest k := by
        simp [keyAbsent, h]
      rw [habs2, ← ih hrest]
      simp [List.filter_cons, h]

theorem filter_key_of_mem {ts : List ARow} (hu : UniqueKeys ts) {t : ARow}
    (ht : t ∈ ts) : ts.filter (fun o => o.key == t.key) = [t] := by
  induction ts with
  | nil => cases ht
  | cons a rest ih =>
    have hrest : UniqueKeys rest := (List.nodup_cons.mp hu).2
    have hnotin : a.key ∉ rest.map ARow.key := (List.nodup_cons.mp hu).1
    rcases List.mem_cons.mp ht with rfl | hmem
    · have hfil : rest.filter (fun o => o.key == t.key) = [] := by
        rw [List.filter_eq_nil_iff]
        intro o ho he
        simp only [beq_iff_eq] at he
        exact hnotin (he ▸ List.mem_map_of_mem ARow.key ho)
      simp [List.filter_cons, hfil]
    · have hne : a.key ≠ t.key := by
        intro he
        exact hnotin (he ▸ List.mem_map_of_mem ARow.key hmem)
      simp [List.filter_cons, hne, ih hrest hmem]

/-! ## Characterization of the merge on canonical-schema tables -/

theorem contains_eq_true_of_mem {l : List String} {c : String} (h : c ∈ l) :
    l.contains c = true :=
  List.elem_eq_true_of_mem h

theorem contains_eq_false_of_not_mem {l : List String} {c : String}
    (h : c ∉ l) : l.contains c = false := by
  show List.elem c l = false
  simp [List.elem_eq_mem, h]

theorem flatMap_congr_mem {α β : Type} {l : List α} {f g : α → List β}
    (h : ∀ a ∈ l, f a = g a) : l.flatMap f = l.flatMap g := by
  induction l with
  | nil => rfl
  | cons a rest ih =>
    simp only [List.flatMap_cons, h a (List.mem_cons_self a rest)]
    rw [ih (fun x hx => h x (List.mem_cons_of_mem a hx))]

theorem all_congr_mem {α : Type} {l : List α} {p q : α → Bool}
    (h : ∀ a ∈ l, p a = q a) : l.all p = l.all q := by
  induction l with
  | nil => rfl
  | cons a rest ih =>
    simp only [List.all_cons, h a (List.mem_cons_self a rest)]
    rw [ih (fun x hx => h x (List.mem_cons_of_mem a hx))]

theorem filter_not_mc {mc fcuc : List String} (hdisj : mc.Disjoint fcuc) :
    (mc ++ fcuc).filter (fun c => !(mc.contains c)) = fcuc := by
  rw [List.filter_append]
  have h1 : mc.filter (fun c => !(mc.contains c)) = [] := by
    rw [List.filter_eq_nil_iff]
    intro c hc
    rw [contains_eq_true_of_mem hc]
    simp
  have h2 : fcuc.filter (fun c => !(mc.contains c)) = fcuc := by
    rw [List.filter_eq_self]
    intro c hc
    rw [contains_eq_false_of_not_mem (fun hm => hdisj hm hc)]
    rfl
  rw [h1, h2, List.nil_append]

theorem mergeCols_eq {mc fc uc : List String} (hL : (mc ++ (fc ++ uc)).Nodup) :
    mergeCols mc SUFFIX_NEW SUFFIX_OLD (mc ++ (fc ++ uc)) (mc ++ (fc ++ uc))
      = bigCols mc fc uc := by
  obtain ⟨hmc, hfu, hdisj⟩ := List.nodup_append.mp hL
  unfold mergeCols bigCols
  have h1 : (mc ++ (fc ++ uc)).map
      (fun c => if mc.contains c then c
        else if (mc ++ (fc ++ uc)).contains c then c ++ SUFFIX_NEW else c)
      = mc ++ (fc ++ uc).map (· ++ SUFFIX_NEW) := by
    rw [List.map_append]
    refine congrArg₂ _ ?_ ?_
    · have : ∀ c ∈ mc, (if mc.contains c then c
          else if (mc ++ (fc ++ uc)).contains c then c ++ SUFFIX_NEW else c) = c := by
        intro c hc
        rw [contains_eq_true_of_mem hc]
        rfl
      rw [List.map_congr_left this]
      simp
    · refine List.map_congr_left fun c hc => ?_
      rw [contains_eq_false_of_not_mem (fun hm => hdisj hm hc),
        contains_eq_true_of_mem (List.mem_append_right mc hc)]
      rfl
  have h2 : (mc ++ (fc ++ uc)).filter (fun c => !(mc.contains c)) = fc ++ uc :=
    filter_not_mc hdisj
  have h3 : (fc ++ uc).map
      (fun c => if (mc ++ (fc ++ uc)).contains c then c ++ SUFFIX_OLD else c)
      = (fc ++ uc).map (· ++ SUFFIX_OLD) := by
    refine List.map_congr_left fun c hc => ?_
    rw [contains_eq_true_of_mem (List.mem_append_right mc hc)]
    rfl
  rw [h1, h2, h3]

theorem toRow_length {mc fc uc : List String} {t : ARow}
    (hk : t.key.length = mc.length) (hf : t.fixed.length = fc.length)
    (hu : t.upd.length = uc.length) :
    t.toRow.length = (mc ++ (fc ++ uc)).length := by
  simp [ARow.toRow, hk, hf, hu]

theorem rowKey_toRow {mc fc uc : List String} (t : ARow) (hmc : mc.Nodup)
    (hk : t.key.length = mc.length) :
    rowKey mc (mc ++ (fc ++ uc)) t.toRow = t.key.map some := by
  unfold rowKey ARow.toRow
  calc mc.map (cellAt (mc ++ (fc ++ uc))
          (t.key.map some ++ (t.fixed ++ t.upd).map some))
      = mc.map (cellAt mc (t.key.map some)) := by
        refine List.map_congr_left fun c hc => ?_
        exact cellAt_append_of_mem _ _ (by simp [hk]) hc
    _ = t.key.map some := map_cellAt_self hmc (by simp [hk])

theorem map_cellAt_fcuc {mc fc uc : List String} {t : ARow}
    (hL : (mc ++ (fc ++ uc)).Nodup)
    (hk : t.key.length = mc.length) (hf : t.fixed.length = fc.length)
    (hu : t.upd.length = uc.length) :
    (fc ++ uc).map (cellAt (mc ++ (fc ++ uc)) t.toRow)
      = (t.fixed ++ t.upd).map some := by
  obtain ⟨hmc, hfu, hdisj⟩ := List.nodup_append.mp hL
  unfold ARow.toRow
  calc (fc ++ uc).map (cellAt (mc ++ (fc ++ uc))
          (t.key.map some ++ (t.fixed ++ t.upd).map some))
      = (fc ++ uc).map (cellAt (fc ++ uc) ((t.fixed ++ t.upd).map some)) := by
        refine List.map_congr_left fun c hc => ?_
        exact cellAt_append_of_not_mem _ _ (by simp [hk])
          (fun hm => hdisj hm hc)
    _ = (t.fixed ++ t.upd).map some :=
        map_cellAt_self hfu (by simp [hf, hu, hk])

theorem rightMatches_mkTable {mc fc uc : List String} {ns os : List ARow}
    (hL : (mc ++ (fc ++ uc)).Nodup) (hn : WfRows mc fc uc ns)
    (ho : WfRows mc fc uc os) {nt : ARow} (hnt : nt ∈ ns) :
    rightMatches mc (mkTable mc fc uc ns) (mkTable mc fc uc os) nt.toRow
      = (os.filter (fun ot => ot.key == nt.key)).map ARow.toRow := by
  have hmc : mc.Nodup := (List.nodup_append.mp hL).1
  unfold rightMatches mkTable
  rw [List.filter_map]
  refine congrArg _ ?_
  refine List.filter_congr fun ot hot => ?_
  show (rowKey mc (mc ++ (fc ++ uc)) ot.toRow
      == rowKey mc (mc ++ (fc ++ uc)) nt.toRow) = (ot.key == nt.key)
  rw [rowKey_toRow ot hmc (ho ot hot).1, rowKey_toRow nt hmc (hn nt hnt).1,
    beq_map_some]

theorem isEmpty_map {α β : Type} (f : α → β) (l : List α) :
    (l.map f).isEmpty = l.isEmpty := by
  cases l <;> rfl

theorem all_comp_map {α β : Type} (f : α → β) (l : List α) (p : β → Bool) :
    (l.map f).all p = l.all (fun a => p (f a)) := by
  induction l with
  | nil => rfl
  | cons a rest ih => simp only [List.map_cons, List.all_cons, ih]

theorem mergeInner_mkTable {mc fc uc : List String} {ns os : List ARow}
    (hL : (mc ++ (fc ++ uc)).Nodup) (hn : WfRows mc fc uc ns)
    (ho : WfRows mc fc uc os) :
    mergeInner mc SUFFIX_NEW SUFFIX_OLD (mkTable mc fc uc ns)
        (mkTable mc fc uc os)
      = ⟨bigCols mc fc uc, innerRowsSpec ns os⟩ := by
  have hdisj := (List.nodup_append.mp hL).2.2
  unfold mergeInner
  refine congrArg₂ DF.mk (mergeCols_eq hL) ?_
  rw [show (mkTable mc fc uc ns).rows = ns.map ARow.toRow from rfl,
    List.flatMap_map]
  unfold innerRowsSpec
  refine flatMap_congr_mem fun nt hnt => ?_
  show (rightMatches mc (mkTable mc fc uc ns) (mkTable mc fc uc os)
      nt.toRow).map _ = _
  rw [rightMatches_mkTable hL hn ho hnt, List.map_map]
  refine List.map_congr_left fun ot hot => ?_
  have hot' : ot ∈ os := (List.mem_filter.mp hot).1
  show joinRow mc (mkTable mc fc uc os).cols nt.toRow ot.toRow = _
  unfold joinRow
  rw [show (mkTable mc fc uc os).cols = mc ++ (fc ++ uc) from rfl,
    filter_not_mc hdisj,
    map_cellAt_fcuc hL (ho ot hot').1 (ho ot hot').2.1 (ho ot hot').2.2]

theorem mergeOuter_mkTable {mc fc uc : List String} {ns os : List ARow}
    (hL : (mc ++ (fc ++ uc)).Nodup) (hn : WfRows mc fc uc ns)
    (ho : WfRows mc fc uc os) :
    mergeOuter mc SUFFIX_NEW SUFFIX_OLD (mkTable mc fc uc ns)
        (mkTable mc fc uc os)
      = ⟨bigCols mc fc uc, outerRowsSpec fc uc ns os⟩ := by
  have hmc := (List.nodup_append.mp hL).1
  have hdisj := (List.nodup_append.mp hL).2.2
  unfold mergeOuter
  refine congrArg₂ DF.mk (mergeCols_eq hL) ?_
  unfold outerRowsSpec
  refine congrArg₂ _ ?_ ?_
  · -- rows coming from the new side
    rw [show (mkTable mc fc uc ns).rows = ns.map ARow.toRow from rfl,
      List.flatMap_map]
    refine flatMap_congr_mem fun nt hnt => ?_
    simp only [Function.comp_apply, Function.comp,
      rightMatches_mkTable hL hn ho hnt, isEmpty_map,
      filter_key_isEmpty_eq_keyAbsent]
    by_cases hab : keyAbsent os nt.key
    · rw [if_pos hab, if_pos hab]
      unfold leftOnlyRow
      rw [show (mkTable mc fc uc os).cols = mc ++ (fc ++ uc) from rfl,
        filter_not_mc hdisj, List.map_const']
    · rw [if_neg hab, if_neg hab, List.map_map]
      refine List.map_congr_left fun ot hot => ?_
      have hot' : ot ∈ os := (List.mem_filter.mp hot).1
      show joinRow mc (mkTable mc fc uc os).cols nt.toRow ot.toRow = _
      unfold joinRow
      rw [show (mkTable mc fc uc os).cols = mc ++ (fc ++ uc) from rfl,
        filter_not_mc hdisj,
        map_cellAt_fcuc hL (ho ot hot').1 (ho ot hot').2.1 (ho ot hot').2.2]
  · -- unmatched rows coming from the original side
    rw [show (mkTable mc fc uc os).rows = os.map ARow.toRow from rfl,
      List.filter_map, List.map_map]
    have hfil : os.filter ((fun r => (mkTable mc fc uc ns).rows.all fun l =>
          !(rowKey mc (mkTable mc fc uc ns).cols l
            == rowKey mc (mkTable mc fc uc os).cols r)) ∘ ARow.toRow)
        = os.filter (fun ot => keyAbsent ns ot.key) := by
      refine List.filter_congr fun ot hot => ?_
      show ((mkTable mc fc uc ns).rows.all fun l =>
        !(rowKey mc (mkTable mc fc uc ns).cols l
          == rowKey mc (mkTable mc fc uc os).cols ot.toRow)) = _
      rw [show (mkTable mc fc uc ns).rows = ns.map ARow.toRow from rfl,
        all_comp_map]
      refine all_congr_mem fun nt hnt => ?_
      show (!(rowKey mc (mkTable mc fc uc ns).cols nt.toRow
        == rowKey mc (mkTable mc fc uc os).cols ot.toRow)) = _
      rw [show (mkTable mc fc uc ns).cols = mc ++ (fc ++ uc) from rfl,
        show (mkTable mc fc uc os).cols = mc ++ (fc ++ uc) from rfl,
        rowKey_toRow nt hmc (hn nt hnt).1, rowKey_toRow ot hmc (ho ot hot).1,
        beq_map_some]
    rw [hfil]
    refine List.map_congr_left fun ot hot => ?_
    have hot' : ot ∈ os := (List.mem_filter.mp hot).1
    show rightOnlyRow mc (mkTable mc fc uc ns).cols
      (mkTable mc fc uc os).cols ot.toRow = _
    unfold rightOnlyRow
    rw [show (mkTable mc fc uc ns).cols = mc ++ (fc ++ uc) from rfl,
      show (mkTable mc fc uc os).cols = mc ++ (fc ++ uc) from rfl,
      filter_not_mc hdisj,
      map_cellAt_fcuc hL (ho ot hot').1 (ho ot hot').2.1 (ho ot hot').2.2,
      List.map_append]
    refine congrArg₂ _ (congrArg₂ _ ?_ ?_) rfl
    · have hmcmap : mc.map (fun c => if mc.contains c
          then cellAt (mc ++ (fc ++ uc)) ot.toRow c else none)
          = mc.map (cellAt (mc ++ (fc ++ uc)) ot.toRow) := by
        refine List.map_congr_left fun c hc => ?_
        rw [contains_eq_true_of_mem hc]
        rfl
      rw [hmcmap]
      exact rowKey_toRow ot hmc (ho ot hot').1
    · have hfumap : (fc ++ uc).map (fun c => if mc.contains c
          then cellAt (mc ++ (fc ++ uc)) ot.toRow c else none)
          = (fc ++ uc).map (fun _ => (none : Cell)) := by
        refine List.map_congr_left fun c hc => ?_
        rw [contains_eq_false_of_not_mem (fun hm => hdisj hm hc)]
        rfl
      rw [hfumap, List.map_const']

/-! ## Classification of the merged rows by the null-mask filters -/

theorem naOld_vals_false {mc fc uc : List String} (r1 : Row) (vals : List String)
    (hbig : (bigCols mc fc uc).Nodup)
    (hr1 : r1.length = mc.length + (fc ++ uc).length)
    (hv : vals.length = (fc ++ uc).length) (hne : fc ++ uc ≠ []) :
    ((fc ++ uc).map (· ++ SUFFIX_OLD)).all
      (fun c => (cellAt (bigCols mc fc uc) (r1 ++ vals.map some) c).isNone)
      = false := by
  obtain ⟨h12, h3, hd⟩ := List.nodup_append.mp hbig
  rw [List.all_eq_false]
  obtain ⟨c0, hc0⟩ := List.exists_mem_of_ne_nil _ hne
  have hmem : c0 ++ SUFFIX_OLD ∈ (fc ++ uc).map (· ++ SUFFIX_OLD) :=
    List.mem_map_of_mem _ hc0
  refine ⟨c0 ++ SUFFIX_OLD, hmem, ?_⟩
  have hnot : c0 ++ SUFFIX_OLD ∉ mc ++ (fc ++ uc).map (· ++ SUFFIX_NEW) :=
    fun hm => hd hm hmem
  rw [show bigCols mc fc uc = (mc ++ (fc ++ uc).map (· ++ SUFFIX_NEW))
      ++ (fc ++ uc).map (· ++ SUFFIX_OLD) from rfl,
    cellAt_append_of_not_mem _ _ (by simp [hr1]) hnot]
  have hs := cellAt_map_some_isSome ((fc ++ uc).map (· ++ SUFFIX_OLD))
    vals (by simp [hv]) hmem
  intro hnone
  rw [Option.isNone_iff_eq_none] at hnone
  rw [hnone] at hs
  simp at hs

theorem naOld_rep_true {mc fc uc : List String} (r1 : Row) (n : Nat)
    (hbig : (bigCols mc fc uc).Nodup)
    (hr1 : r1.length = mc.length + (fc ++ uc).length) :
    ((fc ++ uc).map (· ++ SUFFIX_OLD)).all
      (fun c => (cellAt (bigCols mc fc uc)
        (r1 ++ List.replicate n (none : Cell)) c).isNone) = true := by
  obtain ⟨h12, h3, hd⟩ := List.nodup_append.mp hbig
  rw [List.all_eq_true]
  intro c hc
  have hnot : c ∉ mc ++ (fc ++ uc).map (· ++ SUFFIX_NEW) := fun hm => hd hm hc
  rw [show bigCols mc fc uc = (mc ++ (fc ++ uc).map (· ++ SUFFIX_NEW))
      ++ (fc ++ uc).map (· ++ SUFFIX_OLD) from rfl,
    cellAt_append_of_not_mem _ _ (by simp [hr1]) hnot,
    cellAt_replicate_none]
  rfl

theorem naNew_vals_false {mc fc uc : List String} (key fu : List String)
    (r2 : Row) (hbig : (bigCols mc fc uc).Nodup)
    (hkey : key.length = mc.length) (hfu : fu.length = (fc ++ uc).length)
    (hne : fc ++ uc ≠ []) :
    ((fc ++ uc).map (· ++ SUFFIX_NEW)).all
      (fun c => (cellAt (bigCols mc fc uc)
        ((key.map some ++ fu.map some) ++ r2) c).isNone) = false := by
  obtain ⟨h12, h3, hd⟩ := List.nodup_append.mp hbig
  obtain ⟨hmcN, h2, hd2⟩ := List.nodup_append.mp h12
  rw [List.all_eq_false]
  obtain ⟨c0, hc0⟩ := List.exists_mem_of_ne_nil _ hne
  have hmem : c0 ++ SUFFIX_NEW ∈ (fc ++ uc).map (· ++ SUFFIX_NEW) :=
    List.mem_map_of_mem _ hc0
  refine ⟨c0 ++ SUFFIX_NEW, hmem, ?_⟩
  have hin12 : c0 ++ SUFFIX_NEW ∈ mc ++ (fc ++ uc).map (· ++ SUFFIX_NEW) :=
    List.mem_append_right mc hmem
  have hnotmc : c0 ++ SUFFIX_NEW ∉ mc := fun hm => hd2 hm hmem
  rw [show bigCols mc fc uc = (mc ++ (fc ++ uc).map (· ++ SUFFIX_NEW))
      ++ (fc ++ uc).map (· ++ SUFFIX_OLD) from rfl,
    cellAt_append_of_mem _ _ (by simp [hkey, hfu]) hin12,
    cellAt_append_of_not_mem _ _ (by simp [hkey]) hnotmc]
  have hs := cellAt_map_some_isSome ((fc ++ uc).map (· ++ SUFFIX_NEW))
    fu (by simp [hfu]) hmem
  intro hnone
  rw [Option.isNone_iff_eq_none] at hnone
  rw [hnone] at hs
  simp at hs

theorem naNew_rep_true {mc fc uc : List String} (key : List String) (r2 : Row)
    (hbig : (bigCols mc fc uc).Nodup) (hkey : key.length = mc.length) :
    ((fc ++ uc).map (· ++ SUFFIX_NEW)).all
      (fun c => (cellAt (bigCols mc fc uc)
        ((key.map some ++ List.replicate (fc ++ uc).length (none : Cell))
          ++ r2) c).isNone) = true := by
  obtain ⟨h12, h3, hd⟩ := List.nodup_append.mp hbig
  obtain ⟨hmcN, h2, hd2⟩ := List.nodup_append.mp h12
  rw [List.all_eq_true]
  intro c hc
  have hin12 : c ∈ mc ++ (fc ++ uc).map (· ++ SUFFIX_NEW) :=
    List.mem_append_right mc hc
  have hnotmc : c ∉ mc := fun hm => hd2 hm hc
  rw [show bigCols mc fc uc = (mc ++ (fc ++ uc).map (· ++ SUFFIX_NEW))
      ++ (fc ++ uc).map (· ++ SUFFIX_OLD) from rfl,
    cellAt_append_of_mem _ _ (by simp [hkey]) hin12,
    cellAt_append_of_not_mem _ _ (by simp [hkey]) hnotmc,
    cellAt_replicate_none]
  rfl

/-! ## The three buckets on canonical-schema tables -/

theorem clean_df_snd (df : DF) (dcs : List String) (sub : String → String)
    (perm : List String) :
    (clean_df df dcs sub (some perm)).2
      = selectCols perm (renameCols sub (dropCols dcs df)) := rfl

theorem selectCols_id {L : List String} {rows : List Row} (hL : L.Nodup)
    (hlen : ∀ r ∈ rows, r.length = L.length) :
    selectCols L ⟨L, rows⟩ = ⟨L, rows⟩ := by
  unfold selectCols
  refine congrArg _ ?_
  calc rows.map (fun r => L.map (cellAt L r))
      = rows.map id :=
        List.map_congr_left fun r hr => map_cellAt_self hL (hlen r hr)
    _ = rows := List.map_id rows

theorem dropRow_keep_drop {cols1 cols2 : List String} {r1 r2 : Row}
    {dcs : List String} (h1 : cols1.length = r1.length)
    (hk : ∀ c ∈ cols1, dcs.contains c = false)
    (hd : ∀ c ∈ cols2, dcs.contains c = true) :
    (((cols1 ++ cols2).zip (r1 ++ r2)).filter
      (fun q => !(dcs.contains q.1))).map Prod.snd = r1 := by
  rw [zipFilterSnd_append _ h1, zipFilterSnd_keep h1.symm hk,
    zipFilterSnd_drop hd, List.append_nil]

theorem new_data_mkTable {mc fc uc : List String} {ns os : List ARow}
    (hc : WfCols mc fc uc) (hn : WfRows mc fc uc ns)
    (ho : WfRows mc fc uc os) :
    new_data_of (mkTable mc fc uc ns) (mkTable mc fc uc os) mc fc uc
      = mkTable mc fc uc (ns.filter (fun nt => keyAbsent os nt.key)) := by
  obtain ⟨hL, hbig, hstrip0, hstrip1, hstrip2, hne⟩ := hc
  obtain ⟨h12, h3N, hd123⟩ := List.nodup_append.mp hbig
  unfold new_data_of
  simp only [mergeOuter_mkTable hL hn ho, clean_df_snd]
  have hfa : filterAllNa ((fc ++ uc).map (fun c => c ++ SUFFIX_OLD))
      ⟨bigCols mc fc uc, outerRowsSpec fc uc ns os⟩
      = ⟨bigCols mc fc uc, (ns.filter (fun nt => keyAbsent os nt.key)).map
          (fun nt => nt.toRow
            ++ List.replicate (fc ++ uc).length (none : Cell))⟩ := by
    unfold filterAllNa
    refine congrArg₂ DF.mk rfl ?_
    show (outerRowsSpec fc uc ns os).filter _ = _
    unfold outerRowsSpec
    rw [List.filter_append, List.filter_flatMap]
    have hper : ∀ nt ∈ ns,
        ((if keyAbsent os nt.key
          then [nt.toRow ++ List.replicate (fc ++ uc).length (none : Cell)]
          else (os.filter (fun ot => ot.key == nt.key)).map
            (fun ot => nt.toRow ++ (ot.fixed ++ ot.upd).map some)).filter
          (fun r => ((fc ++ uc).map (fun c => c ++ SUFFIX_OLD)).all
            (fun c => (cellAt (bigCols mc fc uc) r c).isNone)))
        = if keyAbsent os nt.key
          then [nt.toRow ++ List.replicate (fc ++ uc).length (none : Cell)]
          else [] := by
      intro nt hnt
      obtain ⟨hk1, hf1, hu1⟩ := hn nt hnt
      by_cases hab : keyAbsent os nt.key
      · rw [if_pos hab, if_pos hab, List.filter_eq_self]
        intro r hr
        obtain rfl := List.mem_singleton.mp hr
        exact naOld_rep_true nt.toRow (fc ++ uc).length hbig
          (by simp [ARow.toRow, hk1, hf1, hu1])
      · rw [if_neg hab, if_neg hab, List.filter_eq_nil_iff]
        intro r hr
        obtain ⟨ot, hot, rfl⟩ := List.mem_map.mp hr
        have hof := ho ot (List.mem_filter.mp hot).1
        have hp := naOld_vals_false nt.toRow (ot.fixed ++ ot.upd) hbig
          (by simp [ARow.toRow, hk1, hf1, hu1])
          (by simp [hof.2.1, hof.2.2]) hne
        simp only [hp]
        simp
    rw [flatMap_congr_mem hper, flatMap_if_singleton]
    have hright : ((os.filter (fun ot => keyAbsent ns ot.key)).map
        (fun ot => (ot.key.map some
          ++ List.replicate (fc ++ uc).length (none : Cell))
          ++ (ot.fixed ++ ot.upd).map some)).filter
        (fun r => ((fc ++ uc).map (fun c => c ++ SUFFIX_OLD)).all
          (fun c => (cellAt (bigCols mc fc uc) r c).isNone)) = [] := by
      rw [List.filter_eq_nil_iff]
      intro r hr
      obtain ⟨ot, hot, rfl⟩ := List.mem_map.mp hr
      have hof := ho ot (List.mem_filter.mp hot).1
      have hp := naOld_vals_false
        (ot.key.map some ++ List.replicate (fc ++ uc).length (none : Cell))
        (ot.fixed ++ ot.upd) hbig (by simp [hof.1])
        (by simp [hof.2.1, hof.2.2]) hne
      simp only [hp]
      simp
    rw [hright, List.append_nil]
  rw [hfa]
  have hdrop : dropCols ((fc ++ uc).map (fun c => c ++ SUFFIX_OLD))
      ⟨bigCols mc fc uc, (ns.filter (fun nt => keyAbsent os nt.key)).map
        (fun nt => nt.toRow
          ++ List.replicate (fc ++ uc).length (none : Cell))⟩
      = ⟨mc ++ (fc ++ uc).map (· ++ SUFFIX_NEW),
         (ns.filter (fun nt => keyAbsent os nt.key)).map ARow.toRow⟩ := by
    unfold dropCols
    refine congrArg₂ DF.mk ?_ ?_
    · show (bigCols mc fc uc).filter _ = _
      rw [show bigCols mc fc uc = (mc ++ (fc ++ uc).map (· ++ SUFFIX_NEW))
          ++ (fc ++ uc).map (· ++ SUFFIX_OLD) from rfl, List.filter_append]
      have hk : (mc ++ (fc ++ uc).map (· ++ SUFFIX_NEW)).filter
          (fun c => !(((fc ++ uc).map (fun c => c ++ SUFFIX_OLD)).contains c))
          = mc ++ (fc ++ uc).map (· ++ SUFFIX_NEW) := by
        rw [List.filter_eq_self]
        intro c hcm
        rw [contains_eq_false_of_not_mem (fun hm => hd123 hcm hm)]
        rfl
      have hd : ((fc ++ uc).map (· ++ SUFFIX_OLD)).filter
          (fun c => !(((fc ++ uc).map (fun c => c ++ SUFFIX_OLD)).contains c))
          = [] := by
        rw [List.filter_eq_nil_iff]
        intro c hcm
        rw [contains_eq_true_of_mem hcm]
        simp
      rw [hk, hd, List.append_nil]
    · show ((ns.filter (fun nt => keyAbsent os nt.key)).map _).map _ = _
      rw [List.map_map]
      refine List.map_congr_left fun nt hnt => ?_
      have hl := hn nt (List.mem_filter.mp hnt).1
      show ((((bigCols mc fc uc).zip (nt.toRow
        ++ List.replicate (fc ++ uc).length (none : Cell))).filter
        (fun q => !(((fc ++ uc).map (fun c => c ++ SUFFIX_OLD)).contains
          q.1))).map Prod.snd) = nt.toRow
      rw [show bigCols mc fc uc = (mc ++ (fc ++ uc).map (· ++ SUFFIX_NEW))
          ++ (fc ++ uc).map (· ++ SUFFIX_OLD) from rfl]
      refine dropRow_keep_drop ?_ ?_ ?_
      · simp [ARow.toRow, hl.1, hl.2.1, hl.2.2]
      · intro c hcm
        exact contains_eq_false_of_not_mem (fun hm => hd123 hcm hm)
      · intro c hcm
        exact contains_eq_true_of_mem hcm
  rw [hdrop]
  have hrencols : (mc ++ (fc ++ uc).map (· ++ SUFFIX_NEW)).map stripSuffixes
      = mc ++ (fc ++ uc) := by
    rw [List.map_append, List.map_map]
    refine congrArg₂ _ ?_ ?_
    · calc mc.map stripSuffixes = mc.map id :=
          List.map_congr_left fun c hcm =>
            hstrip0 c (List.mem_append_left _ hcm)
        _ = mc := List.map_id mc
    · calc (fc ++ uc).map (stripSuffixes ∘ (· ++ SUFFIX_NEW))
          = (fc ++ uc).map id :=
            List.map_congr_left fun c hcm => hstrip1 c hcm
        _ = fc ++ uc := List.map_id _
  show selectCols (mkTable mc fc uc os).cols
    ⟨(mc ++ (fc ++ uc).map (· ++ SUFFIX_NEW)).map stripSuffixes,
     (ns.filter (fun nt => keyAbsent os nt.key)).map ARow.toRow⟩ = _
  rw [hrencols, show (mkTable mc fc uc os).cols = mc ++ (fc ++ uc) from rfl,
    selectCols_id hL ?hlen]
  case hlen =>
    intro r hr
    obtain ⟨nt, hnt, rfl⟩ := List.mem_map.mp hr
    have hl := hn nt (List.mem_filter.mp hnt).1
    simp [ARow.toRow, hl.1, hl.2.1, hl.2.2]
  rfl

theorem no_change_data_mkTable {mc fc uc : List String} {ns os : List ARow}
    (hc : WfCols mc fc uc) (hn : WfRows mc fc uc ns)
    (ho : WfRows mc fc uc os) :
    no_change_data_of (mkTable mc fc uc ns) (mkTable mc fc uc os) mc fc uc
      = mkTable mc fc uc (os.filter (fun ot => keyAbsent ns ot.key)) := by
  obtain ⟨hL, hbig, hstrip0, hstrip1, hstrip2, hne⟩ := hc
  obtain ⟨h12, h3N, hd123⟩ := List.nodup_append.mp hbig
  obtain ⟨hmcN, h2N, hd12⟩ := List.nodup_append.mp h12
  unfold no_change_data_of
  simp only [mergeOuter_mkTable hL hn ho, clean_df_snd]
  have hfa : filterAllNa ((fc ++ uc).map (fun c => c ++ SUFFIX_NEW))
      ⟨bigCols mc fc uc, outerRowsSpec fc uc ns os⟩
      = ⟨bigCols mc fc uc, (os.filter (fun ot => keyAbsent ns ot.key)).map
          (fun ot => (ot.key.map some
            ++ List.replicate (fc ++ uc).length (none : Cell))
            ++ (ot.fixed ++ ot.upd).map some)⟩ := by
    unfold filterAllNa
    refine congrArg₂ DF.mk rfl ?_
    show (outerRowsSpec fc uc ns os).filter _ = _
    unfold outerRowsSpec
    rw [List.filter_append, List.filter_flatMap]
    have hper : ∀ nt ∈ ns,
        ((if keyAbsent os nt.key
          then [nt.toRow ++ List.replicate (fc ++ uc).length (none : Cell)]
          else (os.filter (fun ot => ot.key == nt.key)).map
            (fun ot => nt.toRow ++ (ot.fixed ++ ot.upd).map some)).filter
          (fun r => ((fc ++ uc).map (fun c => c ++ SUFFIX_NEW)).all
            (fun c => (cellAt (bigCols mc fc uc) r c).isNone))) = [] := by
      intro nt hnt
      obtain ⟨hk1, hf1, hu1⟩ := hn nt hnt
      by_cases hab : keyAbsent os nt.key
      · rw [if_pos hab, List.filter_eq_nil_iff]
        intro r hr
        obtain rfl := List.mem_singleton.mp hr
        have hp := naNew_vals_false nt.key (nt.fixed ++ nt.upd)
          (List.replicate (fc ++ uc).length (none : Cell)) hbig hk1
          (by simp [hf1, hu1]) hne
        simp only [ARow.toRow, hp]
        simp
      · rw [if_neg hab, List.filter_eq_nil_iff]
        intro r hr
        obtain ⟨ot, hot, rfl⟩ := List.mem_map.mp hr
        have hp := naNew_vals_false nt.key (nt.fixed ++ nt.upd)
          ((ot.fixed ++ ot.upd).map some) hbig hk1
          (by simp [hf1, hu1]) hne
        simp only [ARow.toRow, hp]
        simp
    have hflat : (ns.flatMap fun nt =>
        ((if keyAbsent os nt.key
          then [nt.toRow ++ List.replicate (fc ++ uc).length (none : Cell)]
          else (os.filter (fun ot => ot.key == nt.key)).map
            (fun ot => nt.toRow ++ (ot.fixed ++ ot.upd).map some)).filter
          (fun r => ((fc ++ uc).map (fun c => c ++ SUFFIX_NEW)).all
            (fun c => (cellAt (bigCols mc fc uc) r c).isNone)))) = [] :=
      List.flatMap_eq_nil_iff.mpr hper
    rw [hflat, List.nil_append, List.filter_eq_self]
    intro r hr
    obtain ⟨ot, hot, rfl⟩ := List.mem_map.mp hr
    have hof := ho ot (List.mem_filter.mp hot).1
    exact naNew_rep_true ot.key ((ot.fixed ++ ot.upd).map some) hbig hof.1
  rw [hfa]
  have hdrop : dropCols ((fc ++ uc).map (fun c => c ++ SUFFIX_NEW))
      ⟨bigCols mc fc uc, (os.filter (fun ot => keyAbsent ns ot.key)).map
        (fun ot => (ot.key.map some
          ++ List.replicate (fc ++ uc).length (none : Cell))
          ++ (ot.fixed ++ ot.upd).map some)⟩
      = ⟨mc ++ (fc ++ uc).map (· ++ SUFFIX_OLD),
         (os.filter (fun ot => keyAbsent ns ot.key)).map ARow.toRow⟩ := by
    unfold dropCols
    refine congrArg₂ DF.mk ?_ ?_
    · show (bigCols mc fc uc).filter _ = _
      rw [show bigCols mc fc uc = (mc ++ (fc ++ uc).map (· ++ SUFFIX_NEW))
          ++ (fc ++ uc).map (· ++ SUFFIX_OLD) from rfl, List.filter_append,
        List.filter_append]
      have hk1 : mc.filter
          (fun c => !(((fc ++ uc).map (fun c => c ++ SUFFIX_NEW)).contains c))
          = mc := by
        rw [List.filter_eq_self]
        intro c hcm
        rw [contains_eq_false_of_not_mem (fun hm => hd12 hcm hm)]
        rfl
      have hk2 : ((fc ++ uc).map (· ++ SUFFIX_NEW)).filter
          (fun c => !(((fc ++ uc).map (fun c => c ++ SUFFIX_NEW)).contains c))
          = [] := by
        rw [List.filter_eq_nil_iff]
        intro c hcm
        rw [contains_eq_true_of_mem hcm]
        simp
      have hk3 : ((fc ++ uc).map (· ++ SUFFIX_OLD)).filter
          (fun c => !(((fc ++ uc).map (fun c => c ++ SUFFIX_NEW)).contains c))
          = (fc ++ uc).map (· ++ SUFFIX_OLD) := by
        rw [List.filter_eq_self]
        intro c hcm
        rw [contains_eq_false_of_not_mem
          (fun hm => hd123 (List.mem_append_right mc hm) hcm)]
        rfl
      rw [hk1, hk2, hk3, List.append_nil]
    · show ((os.filter (fun ot => keyAbsent ns ot.key)).map _).map _ = _
      rw [List.map_map]
      refine List.map_congr_left fun ot hot => ?_
      have hof := ho ot (List.mem_filter.mp hot).1
      show ((((bigCols mc fc uc).zip ((ot.key.map some
        ++ List.replicate (fc ++ uc).length (none : Cell))
        ++ (ot.fixed ++ ot.upd).map some)).filter
        (fun q => !(((fc ++ uc).map (fun c => c ++ SUFFIX_NEW)).contains
          q.1))).map Prod.snd) = ot.toRow
      rw [show bigCols mc fc uc = (mc ++ (fc ++ uc).map (· ++ SUFFIX_NEW))
          ++ (fc ++ uc).map (· ++ SUFFIX_OLD) from rfl,
        zipFilterSnd_append _ (by simp [hof.1]),
        zipFilterSnd_append _ (by simp [hof.1]),
        zipFilterSnd_keep (by simp [hof.1]) (fun c hcm =>
          contains_eq_false_of_not_mem (fun hm => hd12 hcm hm)),
        zipFilterSnd_drop (fun c hcm => contains_eq_true_of_mem hcm),
        zipFilterSnd_keep (by simp [hof.2.1, hof.2.2]) (fun c hcm =>
          contains_eq_false_of_not_mem
            (fun hm => hd123 (List.mem_append_right mc hm) hcm))]
      simp [ARow.toRow]
  rw [hdrop]
  have hrencols : (mc ++ (fc ++ uc).map (· ++ SUFFIX_OLD)).map stripSuffixes
      = mc ++ (fc ++ uc) := by
    rw [List.map_append, List.map_map]
    refine congrArg₂ _ ?_ ?_
    · calc mc.map stripSuffixes = mc.map id :=
          List.map_congr_left fun c hcm =>
            hstrip0 c (List.mem_append_left _ hcm)
        _ = mc := List.map_id mc
    · calc (fc ++ uc).map (stripSuffixes ∘ (· ++ SUFFIX_OLD))
          = (fc ++ uc).map id :=
            List.map_congr_left fun c hcm => hstrip2 c hcm
        _ = fc ++ uc := List.map_id _
  show selectCols (mkTable mc fc uc os).cols
    ⟨(mc ++ (fc ++ uc).map (· ++ SUFFIX_OLD)).map stripSuffixes,
     (os.filter (fun ot => keyAbsent ns ot.key)).map ARow.toRow⟩ = _
  rw [hrencols, show (mkTable mc fc uc os).cols = mc ++ (fc ++ uc) from rfl,
    selectCols_id hL ?hlen]
  case hlen =>
    intro r hr
    obtain ⟨ot, hot, rfl⟩ := List.mem_map.mp hr
    have hof := ho ot (List.mem_filter.mp hot).1
    simp [ARow.toRow, hof.1, hof.2.1, hof.2.2]
  rfl

theorem update_data_mkTable {mc fc uc : List String} {ns os : List ARow}
    (hc : WfCols mc fc uc) (hn : WfRows mc fc uc ns)
    (ho : WfRows mc fc uc os) :
    update_data_of (mkTable mc fc uc ns) (mkTable mc fc uc os) mc fc uc
      = ⟨mc ++ (fc ++ uc), ns.flatMap (fun nt =>
          (os.filter (fun ot => ot.key == nt.key)).map
            (fun ot => ARow.toRow ⟨nt.key, ot.fixed, nt.upd⟩))⟩ := by
  obtain ⟨hL, hbig, hstrip0, hstrip1, hstrip2, hne⟩ := hc
  obtain ⟨hmcN0, hfuN, hmc_fu⟩ := List.nodup_append.mp hL
  obtain ⟨hfcN, hucN, hfc_uc⟩ := List.nodup_append.mp hfuN
  obtain ⟨h12, h3N, hd123⟩ := List.nodup_append.mp hbig
  obtain ⟨hmcN, h2N, hd12⟩ := List.nodup_append.mp h12
  rw [List.map_append] at h2N hd12 h3N
  rw [List.map_append, List.map_append] at hd123
  obtain ⟨hFN, hUN, hdFU⟩ := List.nodup_append.mp h2N
  obtain ⟨hFO, hUO, hdFO_UO⟩ := List.nodup_append.mp h3N
  have hmcdrop : ∀ c ∈ mc, (fc.map (fun c => c ++ SUFFIX_NEW)
      ++ uc.map (fun c => c ++ SUFFIX_OLD)).contains c = false := by
    intro c hcm
    refine contains_eq_false_of_not_mem (fun hm => ?_)
    rcases List.mem_append.mp hm with h | h
    · exact hd12 hcm (List.mem_append_left _ h)
    · exact hd123 (List.mem_append_left _ hcm) (List.mem_append_right _ h)
  have hundrop : ∀ c ∈ uc.map (· ++ SUFFIX_NEW),
      (fc.map (fun c => c ++ SUFFIX_NEW)
        ++ uc.map (fun c => c ++ SUFFIX_OLD)).contains c = false := by
    intro c hcm
    refine contains_eq_false_of_not_mem (fun hm => ?_)
    rcases List.mem_append.mp hm with h | h
    · exact hdFU h hcm
    · exact hd123 (List.mem_append_right mc (List.mem_append_right _ hcm))
        (List.mem_append_right _ h)
  have hfodrop : ∀ c ∈ fc.map (· ++ SUFFIX_OLD),
      (fc.map (fun c => c ++ SUFFIX_NEW)
        ++ uc.map (fun c => c ++ SUFFIX_OLD)).contains c = false := by
    intro c hcm
    refine contains_eq_false_of_not_mem (fun hm => ?_)
    rcases List.mem_append.mp hm with h | h
    · exact hd123 (List.mem_append_right mc (List.mem_append_left _ h))
        (List.mem_append_left _ hcm)
    · exact hdFO_UO hcm h
  unfold update_data_of
  simp only [mergeInner_mkTable hL hn ho, clean_df_snd]
  have hdrop : dropCols (fc.map (fun c => c ++ SUFFIX_NEW)
      ++ uc.map (fun c => c ++ SUFFIX_OLD))
      ⟨bigCols mc fc uc, innerRowsSpec ns os⟩
      = ⟨(mc ++ uc.map (· ++ SUFFIX_NEW)) ++ fc.map (· ++ SUFFIX_OLD),
         ns.flatMap (fun nt => (os.filter (fun ot => ot.key == nt.key)).map
           (fun ot => (nt.key.map some ++ nt.upd.map some)
             ++ ot.fixed.map some))⟩ := by
    unfold dropCols
    refine congrArg₂ DF.mk ?_ ?_
    · show (bigCols mc fc uc).filter _ = _
      rw [show bigCols mc fc uc
          = (mc ++ (fc.map (· ++ SUFFIX_NEW) ++ uc.map (· ++ SUFFIX_NEW)))
            ++ (fc.map (· ++ SUFFIX_OLD) ++ uc.map (· ++ SUFFIX_OLD))
          from by simp [bigCols]]
      simp only [List.filter_append]
      have hA : mc.filter (fun c => !((fc.map (fun c => c ++ SUFFIX_NEW)
          ++ uc.map (fun c => c ++ SUFFIX_OLD)).contains c)) = mc := by
        rw [List.filter_eq_self]
        intro c hcm
        rw [hmcdrop c hcm]
        rfl
      have hB : (fc.map (· ++ SUFFIX_NEW)).filter
          (fun c => !((fc.map (fun c => c ++ SUFFIX_NEW)
            ++ uc.map (fun c => c ++ SUFFIX_OLD)).contains c)) = [] := by
        rw [List.filter_eq_nil_iff]
        intro c hcm
        rw [contains_eq_true_of_mem (List.mem_append_left _ hcm)]
        simp
      have hC : (uc.map (· ++ SUFFIX_NEW)).filter
          (fun c => !((fc.map (fun c => c ++ SUFFIX_NEW)
            ++ uc.map (fun c => c ++ SUFFIX_OLD)).contains c))
          = uc.map (· ++ SUFFIX_NEW) := by
        rw [List.filter_eq_self]
        intro c hcm
        rw [hundrop c hcm]
        rfl
      have hD : (fc.map (· ++ SUFFIX_OLD)).filter
          (fun c => !((fc.map (fun c => c ++ SUFFIX_NEW)
            ++ uc.map (fun c => c ++ SUFFIX_OLD)).contains c))
          = fc.map (· ++ SUFFIX_OLD) := by
        rw [List.filter_eq_self]
        intro c hcm
        rw [hfodrop c hcm]
        rfl
      have hE : (uc.map (· ++ SUFFIX_OLD)).filter
          (fun c => !((fc.map (fun c => c ++ SUFFIX_NEW)
            ++ uc.map (fun c => c ++ SUFFIX_OLD)).contains c)) = [] := by
        rw [List.filter_eq_nil_iff]
        intro c hcm
        rw [contains_eq_true_of_mem (List.mem_append_right _ hcm)]
        simp
      rw [hA, hB, hC, hD, hE, List.nil_append, List.append_nil]
    · show (innerRowsSpec ns os).map _ = _
      unfold innerRowsSpec
      rw [List.map_flatMap]
      refine flatMap_congr_mem fun nt hnt => ?_
      obtain ⟨hk1, hf1, hu1⟩ := hn nt hnt
      rw [List.map_map]
      refine List.map_congr_left fun ot hot => ?_
      obtain ⟨hk2, hf2, hu2⟩ := ho ot (List.mem_filter.mp hot).1
      show ((((bigCols mc fc uc).zip (nt.toRow
        ++ (ot.fixed ++ ot.upd).map some)).filter
        (fun q => !((fc.map (fun c => c ++ SUFFIX_NEW)
          ++ uc.map (fun c => c ++ SUFFIX_OLD)).contains q.1))).map
        Prod.snd) = (nt.key.map some ++ nt.upd.map some) ++ ot.fixed.map some
      rw [show ARow.toRow nt ++ (ot.fixed ++ ot.upd).map some
          = (nt.key.map some ++ (nt.fixed.map some ++ nt.upd.map some))
            ++ (ot.fixed.map some ++ ot.upd.map some)
          from by simp [ARow.toRow]]
      rw [show bigCols mc fc uc
          = (mc ++ (fc.map (· ++ SUFFIX_NEW) ++ uc.map (· ++ SUFFIX_NEW)))
            ++ (fc.map (· ++ SUFFIX_OLD) ++ uc.map (· ++ SUFFIX_OLD))
          from by simp [bigCols]]
      have hpart1 : (((mc ++ (fc.map (· ++ SUFFIX_NEW)
          ++ uc.map (· ++ SUFFIX_NEW))).zip (nt.key.map some
          ++ (nt.fixed.map some ++ nt.upd.map some))).filter
          (fun q => !((fc.map (fun c => c ++ SUFFIX_NEW)
            ++ uc.map (fun c => c ++ SUFFIX_OLD)).contains q.1))).map
          Prod.snd = nt.key.map some ++ nt.upd.map some := by
        rw [zipFilterSnd_append _ (by simp [hk1]),
          zipFilterSnd_keep (by simp [hk1]) hmcdrop,
          zipFilterSnd_append _ (by simp [hf1]),
          zipFilterSnd_drop (fun c hcm =>
            contains_eq_true_of_mem (List.mem_append_left _ hcm)),
          zipFilterSnd_keep (by simp [hu1]) hundrop, List.nil_append]
      have hpart2 : (((fc.map (· ++ SUFFIX_OLD)
          ++ uc.map (· ++ SUFFIX_OLD)).zip (ot.fixed.map some
          ++ ot.upd.map some)).filter
          (fun q => !((fc.map (fun c => c ++ SUFFIX_NEW)
            ++ uc.map (fun c => c ++ SUFFIX_OLD)).contains q.1))).map
          Prod.snd = ot.fixed.map some := by
        rw [zipFilterSnd_append _ (by simp [hf2]),
          zipFilterSnd_keep (by simp [hf2]) hfodrop,
          zipFilterSnd_drop (fun c hcm =>
            contains_eq_true_of_mem (List.mem_append_right _ hcm)),
          List.append_nil]
      rw [zipFilterSnd_append _ (by simp [hk1, hf1, hu1]), hpart1, hpart2]
  rw [hdrop]
  have hrencols : ((mc ++ uc.map (· ++ SUFFIX_NEW))
      ++ fc.map (· ++ SUFFIX_OLD)).map stripSuffixes = (mc ++ uc) ++ fc := by
    simp only [List.map_append, List.map_map]
    refine congrArg₂ _ (congrArg₂ _ ?_ ?_) ?_
    · calc mc.map stripSuffixes = mc.map id :=
          List.map_congr_left fun c hcm =>
            hstrip0 c (List.mem_append_left _ hcm)
        _ = mc := List.map_id mc
    · calc uc.map (stripSuffixes ∘ (· ++ SUFFIX_NEW))
          = uc.map id := List.map_congr_left fun c hcm =>
            hstrip1 c (List.mem_append_right fc hcm)
        _ = uc := List.map_id uc
    · calc fc.map (stripSuffixes ∘ (· ++ SUFFIX_OLD))
          = fc.map id := List.map_congr_left fun c hcm =>
            hstrip2 c (List.mem_append_left uc hcm)
        _ = fc := List.map_id fc
  show selectCols (mkTable mc fc uc os).cols
    ⟨((mc ++ uc.map (· ++ SUFFIX_NEW)) ++ fc.map (· ++ SUFFIX_OLD)).map
        stripSuffixes,
     ns.flatMap (fun nt => (os.filter (fun ot => ot.key == nt.key)).map
       (fun ot => (nt.key.map some ++ nt.upd.map some)
         ++ ot.fixed.map some))⟩ = _
  rw [hrencols, show (mkTable mc fc uc os).cols = mc ++ (fc ++ uc) from rfl]
  unfold selectCols
  refine congrArg₂ DF.mk rfl ?_
  show (ns.flatMap _).map _ = _
  rw [List.map_flatMap]
  refine flatMap_congr_mem fun nt hnt => ?_
  obtain ⟨hk1, hf1, hu1⟩ := hn nt hnt
  rw [List.map_map]
  refine List.map_congr_left fun ot hot => ?_
  obtain ⟨hk2, hf2, hu2⟩ := ho ot (List.mem_filter.mp hot).1
  show (mc ++ (fc ++ uc)).map (cellAt ((mc ++ uc) ++ fc)
    ((nt.key.map some ++ nt.upd.map some) ++ ot.fixed.map some))
    = ARow.toRow ⟨nt.key, ot.fixed, nt.upd⟩
  rw [List.map_append, List.map_append]
  have hmcpart : mc.map (cellAt ((mc ++ uc) ++ fc)
      ((nt.key.map some ++ nt.upd.map some) ++ ot.fixed.map some))
      = nt.key.map some := by
    calc mc.map (cellAt ((mc ++ uc) ++ fc)
        ((nt.key.map some ++ nt.upd.map some) ++ ot.fixed.map some))
        = mc.map (cellAt mc (nt.key.map some)) := by
          refine List.map_congr_left fun c hcm => ?_
          rw [cellAt_append_of_mem _ _ (by simp [hk1, hu1])
              (List.mem_append_left uc hcm),
            cellAt_append_of_mem _ _ (by simp [hk1]) hcm]
      _ = nt.key.map some := map_cellAt_self hmcN0 (by simp [hk1])
  have hfcpart : fc.map (cellAt ((mc ++ uc) ++ fc)
      ((nt.key.map some ++ nt.upd.map some) ++ ot.fixed.map some))
      = ot.fixed.map some := by
    calc fc.map (cellAt ((mc ++ uc) ++ fc)
        ((nt.key.map some ++ nt.upd.map some) ++ ot.fixed.map some))
        = fc.map (cellAt fc (ot.fixed.map some)) := by
          refine List.map_congr_left fun c hcm => ?_
          refine cellAt_append_of_not_mem _ _ (by simp [hk1, hu1])
            (fun hm => ?_)
          rcases List.mem_append.mp hm with h | h
          · exact hmc_fu h (List.mem_append_left uc hcm)
          · exact hfc_uc hcm h
      _ = ot.fixed.map some := map_cellAt_self hfcN (by simp [hf2])
  have hucpart : uc.map (cellAt ((mc ++ uc) ++ fc)
      ((nt.key.map some ++ nt.upd.map some) ++ ot.fixed.map some))
      = nt.upd.map some := by
    calc uc.map (cellAt ((mc ++ uc) ++ fc)
        ((nt.key.map some ++ nt.upd.map some) ++ ot.fixed.map some))
        = uc.map (cellAt uc (nt.upd.map some)) := by
          refine List.map_congr_left fun c hcm => ?_
          rw [cellAt_append_of_mem _ _ (by simp [hk1, hu1])
              (List.mem_append_right mc hcm),
            cellAt_append_of_not_mem _ _ (by simp [hk1])
              (fun hm => hmc_fu hm (List.mem_append_right fc hcm))]
      _ = nt.upd.map some := map_cellAt_self hucN (by simp [hu1])
  rw [hmcpart, hfcpart, hucpart]
  simp [ARow.toRow]

theorem flatMap_singleton_map {α β : Type} (l : List α) (f : α → β) :
    l.flatMap (fun a => [f a]) = l.map f := by
  induction l with
  | nil => rfl
  | cons a rest ih => simp only [List.flatMap_cons, ih, List.map_cons,
      List.singleton_append]

theorem innerC_length {os : List ARow} (huo : UniqueKeys os) (ns : List ARow)
    (g : ARow → ARow → Row) :
    (ns.flatMap (fun nt =>
      (os.filter (fun ot => ot.key == nt.key)).map (g nt))).length
      = (ns.filter (fun nt => !(keyAbsent os nt.key))).length := by
  induction ns with
  | nil => rfl
  | cons nt rest ih =>
    rw [List.flatMap_cons, List.length_append, List.length_map,
      filter_key_length huo, List.filter_cons]
    by_cases hab : keyAbsent os nt.key
    · rw [if_pos hab]
      simp [hab, ih]
    · rw [if_neg hab]
      simp only [Bool.not_eq_true] at hab
      simp [hab, ih, Nat.add_comm]

theorem cellAt_toRow_fc {mc fc uc : List String} (t : ARow)
    (hL : (mc ++ (fc ++ uc)).Nodup) (hk : t.key.length = mc.length)
    (hf : t.fixed.length = fc.length) {c : String} (hcfc : c ∈ fc) :
    cellAt (mc ++ (fc ++ uc)) t.toRow c = cellAt fc (t.fixed.map some) c := by
  obtain ⟨hmcN, hfuN, hmc_fu⟩ := List.nodup_append.mp hL
  unfold ARow.toRow
  rw [List.map_append,
    cellAt_append_of_not_mem _ _ (by simp [hk])
      (fun hm => hmc_fu hm (List.mem_append_left uc hcfc)),
    cellAt_append_of_mem _ _ (by simp [hf]) hcfc]

theorem cellAt_toRow_uc {mc fc uc : List String} (t : ARow)
    (hL : (mc ++ (fc ++ uc)).Nodup) (hk : t.key.length = mc.length)
    (hf : t.fixed.length = fc.length) {c : String} (hcuc : c ∈ uc) :
    cellAt (mc ++ (fc ++ uc)) t.toRow c = cellAt uc (t.upd.map some) c := by
  obtain ⟨hmcN, hfuN, hmc_fu⟩ := List.nodup_append.mp hL
  obtain ⟨hfcN, hucN, hfc_uc⟩ := List.nodup_append.mp hfuN
  unfold ARow.toRow
  rw [List.map_append,
    cellAt_append_of_not_mem _ _ (by simp [hk])
      (fun hm => hmc_fu hm (List.mem_append_right fc hcuc)),
    cellAt_append_of_not_mem _ _ (by simp [hf])
      (fun hm => hfc_uc hm hcuc)]

theorem map_some_inj {a b : List String} (h : a.map some = b.map some) :
    a = b :=
  List.map_injective_iff.mpr (Option.some_injective String) h

/-- Full characterization of the reconciler on canonical-schema tables:
the output columns are the original columns, and the rows are the new-only
rows, then the original-only rows, then one combined row per matching pair,
with fixed values from the original side and update values from the new
side. -/
theorem update_mkTable_spec {mc fc uc : List String} {ns os : List ARow}
    (hc : WfCols mc fc uc) (hn : WfRows mc fc uc ns)
    (ho : WfRows mc fc uc os) (sb : Option (List String)) (asc : Bool) :
    update_dataframe_conditionally (mkTable mc fc uc ns)
        (mkTable mc fc uc os) mc fc uc sb asc
      = ⟨mc ++ (fc ++ uc),
         (ns.filter (fun nt => keyAbsent os nt.key)).map ARow.toRow
         ++ ((os.filter (fun ot => keyAbsent ns ot.key)).map ARow.toRow
             ++ ns.flatMap (fun nt =>
               (os.filter (fun ot => ot.key == nt.key)).map
                 (fun ot => ARow.toRow ⟨nt.key, ot.fixed, nt.upd⟩)))⟩ := by
  have hfilter_id : uc.filter (fun c => !(mc.contains c)) = uc := by
    rw [List.filter_eq_self]
    intro c hcu
    have hd := (List.nodup_append.mp hc.1).2.2
    rw [contains_eq_false_of_not_mem
      (fun hm => hd hm (List.mem_append_right fc hcu))]
    rfl
  unfold update_dataframe_conditionally
  simp only [hfilter_id]
  rw [new_data_mkTable hc hn ho, no_change_data_mkTable hc hn ho,
    update_data_mkTable hc hn ho]
  simp [mkTable]

/-! ## Theorems -/

/-- C1: reconciling tables whose merge-key sets are `A ∪ C` (new) and
`B ∪ C` (original), with unique keys per table and all fixed/update values
present, yields exactly `card A + card B + card C` rows, and no two output
rows agree on the merge columns. -/
theorem reconcile_row_count_and_distinct_keys
    (mc fc uc : List String) (ns os : List ARow) (sb : Option (List String))
    (asc : Bool) (hc : WfCols mc fc uc) (hn : WfRows mc fc uc ns)
    (ho : WfRows mc fc uc os) (hun : UniqueKeys ns) (huo : UniqueKeys os) :
    (update_dataframe_conditionally (mkTable mc fc uc ns)
        (mkTable mc fc uc os) mc fc uc sb asc).rows.length
      = (ns.filter (fun nt => keyAbsent os nt.key)).length
        + (os.filter (fun ot => keyAbsent ns ot.key)).length
        + (ns.filter (fun nt => !(keyAbsent os nt.key))).length
    ∧ List.Pairwise (fun r1 r2 =>
        rowKey mc (update_dataframe_conditionally (mkTable mc fc uc ns)
            (mkTable mc fc uc os) mc fc uc sb asc).cols r1
          ≠ rowKey mc (update_dataframe_conditionally (mkTable mc fc uc ns)
            (mkTable mc fc uc os) mc fc uc sb asc).cols r2)
        (update_dataframe_conditionally (mkTable mc fc uc ns)
          (mkTable mc fc uc os) mc fc uc sb asc).rows := by
  have hmcN : mc.Nodup := (List.nodup_append.mp hc.1).1
  have hunP : ns.Pairwise (fun a b => a.key ≠ b.key) := List.pairwise_map.mp hun
  have huoP : os.Pairwise (fun a b => a.key ≠ b.key) := List.pairwise_map.mp huo
  rw [update_mkTable_spec hc hn ho sb asc]
  dsimp only
  have hkeyA : ∀ t ∈ ns,
      rowKey mc (mc ++ (fc ++ uc)) t.toRow = t.key.map some :=
    fun t ht => rowKey_toRow t hmcN (hn t ht).1
  have hkeyB : ∀ t ∈ os,
      rowKey mc (mc ++ (fc ++ uc)) t.toRow = t.key.map some :=
    fun t ht => rowKey_toRow t hmcN (ho t ht).1
  have hkeyC : ∀ nt ∈ ns, ∀ ot : ARow,
      rowKey mc (mc ++ (fc ++ uc))
        (ARow.toRow ⟨nt.key, ot.fixed, nt.upd⟩) = nt.key.map some :=
    fun nt hnt ot => rowKey_toRow ⟨nt.key, ot.fixed, nt.upd⟩ hmcN ((hn nt hnt).1)
  constructor
  · rw [List.length_append, List.length_append, List.length_map,
      List.length_map, innerC_length huo ns _]
    omega
  · rw [List.pairwise_append, List.pairwise_append]
    refine ⟨?_, ⟨?_, ?_, ?_⟩, ?_⟩
    · rw [List.pairwise_map]
      have hsub : (ns.filter (fun nt => keyAbsent os nt.key)).Pairwise
          (fun a b => a.key ≠ b.key) :=
        List.Pairwise.sublist (List.filter_sublist ns) hunP
      refine List.Pairwise.imp_of_mem ?_ hsub
      intro a b ha hb hne
      rw [hkeyA a (List.mem_of_mem_filter ha),
        hkeyA b (List.mem_of_mem_filter hb)]
      exact fun e => hne (map_some_inj e)
    · rw [List.pairwise_map]
      have hsub : (os.filter (fun ot => keyAbsent ns ot.key)).Pairwise
          (fun a b => a.key ≠ b.key) :=
        List.Pairwise.sublist (List.filter_sublist os) huoP
      refine List.Pairwise.imp_of_mem ?_ hsub
      intro a b ha hb hne
      rw [hkeyB a (List.mem_of_mem_filter ha),
        hkeyB b (List.mem_of_mem_filter hb)]
      exact fun e => hne (map_some_inj e)
    · rw [List.pairwise_flatMap]
      constructor
      · intro nt hnt
        refine pairwise_of_length_le_one ?_
        rw [List.length_map, filter_key_length huo]
        split <;> omega
      · refine List.Pairwise.imp_of_mem ?_ hunP
        intro a b ha hb hne x hx y hy
        obtain ⟨ot1, hot1, rfl⟩ := List.mem_map.mp hx
        obtain ⟨ot2, hot2, rfl⟩ := List.mem_map.mp hy
        rw [hkeyC a ha ot1, hkeyC b hb ot2]
        exact fun e => hne (map_some_inj e)
    · intro x hx y hy
      obtain ⟨ot, hot, rfl⟩ := List.mem_map.mp hx
      obtain ⟨nt, hnt, hy2⟩ := List.mem_flatMap.mp hy
      obtain ⟨ot2, hot2, rfl⟩ := List.mem_map.mp hy2
      have habs : keyAbsent ns ot.key = true := (List.mem_filter.mp hot).2
      rw [hkeyB ot (List.mem_of_mem_filter hot), hkeyC nt hnt ot2]
      intro e
      exact (keyAbsent_iff.mp habs nt hnt) (map_some_inj e).symm
    · intro x hx y hy
      obtain ⟨nt, hnt, rfl⟩ := List.mem_map.mp hx
      have habs : keyAbsent os nt.key = true := (List.mem_filter.mp hnt).2
      rw [hkeyA nt (List.mem_of_mem_filter hnt)]
      rcases List.mem_append.mp hy with hyB | hyC
      · obtain ⟨ot, hot, rfl⟩ := List.mem_map.mp hyB
        rw [hkeyB ot (List.mem_of_mem_filter hot)]
        intro e
        exact (keyAbsent_iff.mp habs ot (List.mem_of_mem_filter hot))
          (map_some_inj e).symm
      · obtain ⟨nt2, hnt2, hy2⟩ := List.mem_flatMap.mp hyC
        obtain ⟨ot2, hot2, rfl⟩ := List.mem_map.mp hy2
        rw [hkeyC nt2 hnt2 ot2]
        intro e
        have hkeq : nt.key = nt2.key := map_some_inj e
        have hotk : ot2.key = nt2.key :=
          beq_iff_eq.mp (List.mem_filter.mp hot2).2
        exact (keyAbsent_iff.mp habs ot2 (List.mem_of_mem_filter hot2))
          (hotk.trans hkeq.symm)

/-- Validation of the updated-bucket suffix pairing against the worked
example of spec §8: the returned overlap row keeps `FIRST_OUTREACH`
(fixed) from the original row and takes `LAST_OUTREACH` and `COMPANY`
(update) from the new row, because line 334 drops
`FIRST_OUTREACH_new`, `LAST_OUTREACH_old` and `COMPANY_old`. -/
theorem update_matches_spec_worked_example :
    update_dataframe_conditionally
      ⟨["EMAIL", "FIRST_OUTREACH", "LAST_OUTREACH", "COMPANY"],
       [[some "a@x.com", some "2024-06-01", some "2024-06-01", some "New"]]⟩
      ⟨["EMAIL", "FIRST_OUTREACH", "LAST_OUTREACH", "COMPANY"],
       [[some "a@x.com", some "2024-01-01", some "2024-01-01", some "Old"]]⟩
      ["EMAIL"] ["FIRST_OUTREACH"] ["LAST_OUTREACH", "COMPANY"] none false
    = ⟨["EMAIL", "FIRST_OUTREACH", "LAST_OUTREACH", "COMPANY"],
       [[some "a@x.com", some "2024-01-01", some "2024-06-01", some "New"]]⟩ := by
  decide

/-- The updated bucket at a schematic overlap pair: with new row
`(c, fn, un, vn)` and original row `(c, fo, uo, vo)` under schema
`(K, F, U, V)`, line 334 computes the drop list `[F_new, U_old, V_old]`,
so the bucket row is `(c, fo, un, vn)`: the fixed value from the original
side and the update values from the new side. -/
theorem update_data_of_overlap_row :
    (update_data_of
      ⟨["K", "F", "U", "V"], [[some "c", some "fn", some "un", some "vn"]]⟩
      ⟨["K", "F", "U", "V"], [[some "c", some "fo", some "uo", some "vo"]]⟩
      ["K"] ["F"] ["U", "V"]).rows
    = [[some "c", some "fo", some "un", some "vn"]] := by
  decide

/-- C2: for every key in the overlap, the output's row for that key carries
the fixed-column values of the original row, not the new row's.  This is
what the source computes: line 334 pairs `fixed_columns` with
`SUFFIXES[0] = "_new"` in the drop list, so the new-side fixed cells are
dropped and the original-side ones kept. -/
theorem overlap_preserves_fixed_columns
    (mc fc uc : List String) (ns os : List ARow) (sb : Option (List String))
    (asc : Bool) (hc : WfCols mc fc uc) (hn : WfRows mc fc uc ns)
    (ho : WfRows mc fc uc os) (hun : UniqueKeys ns) (huo : UniqueKeys os)
    (l r : ARow) (hl : l ∈ ns) (hr : r ∈ os) (hk : l.key = r.key) :
    (∃ row ∈ (update_dataframe_conditionally (mkTable mc fc uc ns)
        (mkTable mc fc uc os) mc fc uc sb asc).rows,
      rowKey mc (update_dataframe_conditionally (mkTable mc fc uc ns)
        (mkTable mc fc uc os) mc fc uc sb asc).cols row = r.key.map some)
    ∧ ∀ row ∈ (update_dataframe_conditionally (mkTable mc fc uc ns)
        (mkTable mc fc uc os) mc fc uc sb asc).rows,
      rowKey mc (update_dataframe_conditionally (mkTable mc fc uc ns)
        (mkTable mc fc uc os) mc fc uc sb asc).cols row = r.key.map some →
      ∀ c ∈ fc,
        cellAt (update_dataframe_conditionally (mkTable mc fc uc ns)
          (mkTable mc fc uc os) mc fc uc sb asc).cols row c
        = cellAt (mkTable mc fc uc os).cols r.toRow c := by
  have hmcN : mc.Nodup := (List.nodup_append.mp hc.1).1
  rw [update_mkTable_spec hc hn ho sb asc]
  dsimp only
  constructor
  · refine ⟨ARow.toRow ⟨l.key, r.fixed, l.upd⟩, ?_, ?_⟩
    · refine List.mem_append_right _ (List.mem_append_right _ ?_)
      refine List.mem_flatMap.mpr ⟨l, hl, ?_⟩
      refine List.mem_map.mpr ⟨r, ?_, rfl⟩
      exact List.mem_filter.mpr ⟨hr, beq_iff_eq.mpr hk.symm⟩
    · rw [rowKey_toRow ⟨l.key, r.fixed, l.upd⟩ hmcN ((hn l hl).1), hk]
  · intro row hrow hkey c hcfc
    rcases List.mem_append.mp hrow with hA | hBC
    · obtain ⟨nt, hnt, rfl⟩ := List.mem_map.mp hA
      exfalso
      have habs : keyAbsent os nt.key = true := (List.mem_filter.mp hnt).2
      rw [rowKey_toRow nt hmcN (hn nt (List.mem_of_mem_filter hnt)).1] at hkey
      exact (keyAbsent_iff.mp habs r hr) (map_some_inj hkey).symm
    · rcases List.mem_append.mp hBC with hB | hC
      · obtain ⟨ot, hot, rfl⟩ := List.mem_map.mp hB
        exfalso
        have habs : keyAbsent ns ot.key = true := (List.mem_filter.mp hot).2
        rw [rowKey_toRow ot hmcN (ho ot (List.mem_of_mem_filter hot)).1] at hkey
        exact (keyAbsent_iff.mp habs l hl) (hk ▸ (map_some_inj hkey)).symm
      · obtain ⟨nt, hnt, hy2⟩ := List.mem_flatMap.mp hC
        obtain ⟨ot, hot, rfl⟩ := List.mem_map.mp hy2
        rw [rowKey_toRow ⟨nt.key, ot.fixed, nt.upd⟩ hmcN ((hn nt hnt).1)] at hkey
        have hntk : nt.key = r.key := map_some_inj hkey
        have hotk : ot.key = nt.key :=
          beq_iff_eq.mp (List.mem_filter.mp hot).2
        have hotr : ot = r := List.inj_on_of_nodup_map huo
          (List.mem_of_mem_filter hot) hr (hotk.trans hntk)
        subst hotr
        rw [show (mkTable mc fc uc os).cols = mc ++ (fc ++ uc) from rfl,
          cellAt_toRow_fc ⟨nt.key, ot.fixed, nt.upd⟩ hc.1 ((hn nt hnt).1)
            ((ho ot hr).2.1) hcfc,
          cellAt_toRow_fc ot hc.1 (ho ot hr).1 (ho ot hr).2.1 hcfc]

/-- C3: for every key in the overlap, the output's row for that key carries
the update-column values of the new row.  This is what the source
computes: line 334 pairs `update_columns` with `SUFFIXES[1] = "_old"` in
the drop list, so the old-side update cells are dropped and the new-side
ones kept. -/
theorem overlap_overwrites_update_columns
    (mc fc uc : List String) (ns os : List ARow) (sb : Option (List String))
    (asc : Bool) (hc : WfCols mc fc uc) (hn : WfRows mc fc uc ns)
    (ho : WfRows mc fc uc os) (hun : UniqueKeys ns) (huo : UniqueKeys os)
    (l r : ARow) (hl : l ∈ ns) (hr : r ∈ os) (hk : l.key = r.key) :
    (∃ row ∈ (update_dataframe_conditionally (mkTable mc fc uc ns)
        (mkTable mc fc uc os) mc fc uc sb asc).rows,
      rowKey mc (update_dataframe_conditionally (mkTable mc fc uc ns)
        (mkTable mc fc uc os) mc fc uc sb asc).cols row = l.key.map some)
    ∧ ∀ row ∈ (update_dataframe_conditionally (mkTable mc fc uc ns)
        (mkTable mc fc uc os) mc fc uc sb asc).rows,
      rowKey mc (update_dataframe_conditionally (mkTable mc fc uc ns)
        (mkTable mc fc uc os) mc fc uc sb asc).cols row = l.key.map some →
      ∀ c ∈ uc,
        cellAt (update_dataframe_conditionally (mkTable mc fc uc ns)
          (mkTable mc fc uc os) mc fc uc sb asc).cols row c
        = cellAt (mkTable mc fc uc ns).cols l.toRow c := by
  have hmcN : mc.Nodup := (List.nodup_append.mp hc.1).1
  rw [update_mkTable_spec hc hn ho sb asc]
  dsimp only
  constructor
  · refine ⟨ARow.toRow ⟨l.key, r.fixed, l.upd⟩, ?_, ?_⟩
    · refine List.mem_append_right _ (List.mem_append_right _ ?_)
      refine List.mem_flatMap.mpr ⟨l, hl, ?_⟩
      refine List.mem_map.mpr ⟨r, ?_, rfl⟩
      exact List.mem_filter.mpr ⟨hr, beq_iff_eq.mpr hk.symm⟩
    · rw [rowKey_toRow ⟨l.key, r.fixed, l.upd⟩ hmcN ((hn l hl).1)]
  · intro row hrow hkey c hcuc
    rcases List.mem_append.mp hrow with hA | hBC
    · obtain ⟨nt, hnt, rfl⟩ := List.mem_map.mp hA
      exfalso
      have habs : keyAbsent os nt.key = true := (List.mem_filter.mp hnt).2
      rw [rowKey_toRow nt hmcN (hn nt (List.mem_of_mem_filter hnt)).1] at hkey
      have hntk : nt.key = l.key := map_some_inj hkey
      exact (keyAbsent_iff.mp habs r hr) ((hk ▸ hntk) ▸ rfl)
    · rcases List.mem_append.mp hBC with hB | hC
      · obtain ⟨ot, hot, rfl⟩ := List.mem_map.mp hB
        exfalso
        have habs : keyAbsent ns ot.key = true := (List.mem_filter.mp hot).2
        rw [rowKey_toRow ot hmcN (ho ot (List.mem_of_mem_filter hot)).1] at hkey
        exact (keyAbsent_iff.mp habs l hl) (map_some_inj hkey).symm
      · obtain ⟨nt, hnt, hy2⟩ := List.mem_flatMap.mp hC
        obtain ⟨ot, hot, rfl⟩ := List.mem_map.mp hy2
        rw [rowKey_toRow ⟨nt.key, ot.fixed, nt.upd⟩ hmcN ((hn nt hnt).1)] at hkey
        have hntl : nt = l := List.inj_on_of_nodup_map hun hnt hl
          (map_some_inj hkey)
        subst hntl
        rw [show (mkTable mc fc uc ns).cols = mc ++ (fc ++ uc) from rfl,
          cellAt_toRow_uc ⟨nt.key, ot.fixed, nt.upd⟩ hc.1 ((hn nt hnt).1)
            ((ho ot (List.mem_of_mem_filter hot)).2.1) hcuc,
          cellAt_toRow_uc nt hc.1 (hn nt hnt).1 (hn nt hnt).2.1 hcuc]

/-- C4 (amended): reconciling a well-formed table against itself returns a
table equal to the input, but every row is classified into the *updated*
bucket: the new and no-change buckets are empty and the inner-join bucket
reproduces the whole table. -/
theorem self_reconcile_identity_via_updated_bucket
    (mc fc uc : List String) (ts : List ARow) (sb : Option (List String))
    (asc : Bool) (hc : WfCols mc fc uc) (ht : WfRows mc fc uc ts)
    (hu : UniqueKeys ts) :
    update_dataframe_conditionally (mkTable mc fc uc ts)
        (mkTable mc fc uc ts) mc fc uc sb asc = mkTable mc fc uc ts
    ∧ (new_data_of (mkTable mc fc uc ts) (mkTable mc fc uc ts)
        mc fc uc).rows = []
    ∧ (no_change_data_of (mkTable mc fc uc ts) (mkTable mc fc uc ts)
        mc fc uc).rows = []
    ∧ (update_data_of (mkTable mc fc uc ts) (mkTable mc fc uc ts)
        mc fc uc).rows = (mkTable mc fc uc ts).rows := by
  have hAempty : ts.filter (fun t => keyAbsent ts t.key) = [] := by
    rw [List.filter_eq_nil_iff]
    intro t htm
    rw [keyAbsent_eq_false.mpr ⟨t, htm, rfl⟩]
    simp
  have hC : ts.flatMap (fun nt => (ts.filter (fun ot => ot.key == nt.key)).map
      (fun ot => ARow.toRow ⟨nt.key, ot.fixed, nt.upd⟩)) = ts.map ARow.toRow := by
    have hper : ∀ nt ∈ ts, ((ts.filter (fun ot => ot.key == nt.key)).map
        (fun ot => ARow.toRow ⟨nt.key, ot.fixed, nt.upd⟩)) = [ARow.toRow nt] := by
      intro nt hnt
      rw [filter_key_of_mem hu hnt]
      rfl
    rw [flatMap_congr_mem hper, flatMap_singleton_map]
  refine ⟨?_, ?_, ?_, ?_⟩
  · rw [update_mkTable_spec hc ht ht sb asc, hAempty, hC]
    simp [mkTable]
  · rw [new_data_mkTable hc ht ht, hAempty]
    rfl
  · rw [no_change_data_mkTable hc ht ht, hAempty]
    rfl
  · rw [update_data_mkTable hc ht ht]
    dsimp only
    rw [hC]
    rfl

/-- C6: `update_dataframe_conditionally` first removes from `update_columns`
every entry present in `merge_columns` (line 316), so its result is
unchanged when the caller has already removed them: no merge-key column is
treated as an update column anywhere in the flow. -/
theorem update_columns_deconflicted (new_df original_df : DF)
    (mc fc uc : List String) (sb : Option (List String)) (asc : Bool) :
    update_dataframe_conditionally new_df original_df mc fc uc sb asc
      = update_dataframe_conditionally new_df original_df mc fc
          (uc.filter (fun c => !(mc.contains c))) sb asc := by
  simp only [update_dataframe_conditionally, List.filter_filter, Bool.and_self]

/-- C8: the per-entry loop of `details_to_df` is total; an entry whose record
construction raises contributes no record and exactly one log message naming
its key, and every other entry contributes its record — one bad entry never
aborts the batch. -/
theorem details_loop_isolates_failures (today : Date)
    (data : List (String × Detail)) :
    (details_loop today data).1
      = data.filterMap (fun kv => match mkRecord today kv.1 kv.2 with
          | Except.ok r => some (kv.1, r)
          | Except.error _ => none)
    ∧ (details_loop today data).2
      = data.filterMap (fun kv => match mkRecord today kv.1 kv.2 with
          | Except.ok _ => none
          | Except.error e => some (logMsgFor kv.1 e)) := by
  induction data with
  | nil => exact ⟨rfl, rfl⟩
  | cons kv rest ih =>
    obtain ⟨k, d⟩ := kv
    simp only [details_loop, List.filterMap_cons]
    cases h : mkRecord today k d <;> simp [h, ih.1, ih.2]

/-- C9: for the empty detail mapping, `details_to_df` returns the `None`
sentinel, and `db_contacts_updater` then skips the write-back: the sink is
not called. -/
theorem empty_mapping_skips_write (today : Date) (original_df : DF)
    (mc fc uc : List String) (sb : Option (List String)) :
    (details_to_df today []).1 = none
    ∧ db_contacts_updater today original_df mc fc uc sb [] = none :=
  ⟨rfl, rfl⟩

/-- C10: `clean_df` mutates the frame passed to it: after any call the
caller's frame has the `drop_columns` removed and every remaining column
renamed by the pattern substitution, whatever `permuted_columns` is; and
when `permuted_columns` is `none` the returned frame is that mutated frame
itself. -/
theorem clean_df_mutates_in_place (df : DF) (dcs : List String)
    (sub : String → String) (perm : Option (List String)) :
    (clean_df df dcs sub perm).1 = renameCols sub (dropCols dcs df)
    ∧ (clean_df df dcs sub perm).1.cols
        = (df.cols.filter (fun c => !(dcs.contains c))).map sub
    ∧ (clean_df df dcs sub none).2 = (clean_df df dcs sub none).1 := by
  refine ⟨?_, ?_, rfl⟩ <;> cases perm <;> rfl

/-- C7: `details_to_df` returns the `None` sentinel even on a non-empty
well-formed mapping — `df` is never reassigned and `response_df` is
discarded — and the record that would have populated the discarded frame
carries `FIRST_OUTREACH = "Y-06-01"` (the `strftime("Y-%m-%d")` typo of
line 243), not the current date. -/
theorem details_to_df_always_sentinel :
    (details_to_df ⟨"2024", "06", "01"⟩
        [("a@x.com", some ⟨some "Ann", some "Lee", some "Acme"⟩)]).1 = none
    ∧ mkRecord ⟨"2024", "06", "01"⟩ "a@x.com"
          (some ⟨some "Ann", some "Lee", some "Acme"⟩)
        = Except.ok { CREATEDATETIME := "2024-06-01", FIRST_NAME := "Ann",
                      LAST_NAME := "Lee", EMAIL := "a@x.com", COMPANY := "Acme",
                      LAST_OUTREACH := "2024-06-01", FIRST_OUTREACH := "Y-06-01" }
    ∧ ("Y-06-01" : String) ≠ "2024-06-01" := by
  refine ⟨rfl, rfl, by decide⟩

/-- C5: line 339 discards the frame produced by `sort_values`, so the
returned table is not sorted by `sort_by`: on this input (new keys
`a`, `c`; original keys `b`, `c`) the output rows are keyed `a`, `b`, `c`
in that order — not descending — although `sort_by = ["EMAIL"]` and
`ascending = False` were passed. -/
theorem sort_values_result_discarded :
    (sortedByDesc ["EMAIL"] (update_dataframe_conditionally
      ⟨["EMAIL", "FIRST_OUTREACH", "LAST_OUTREACH", "COMPANY"],
       [[some "a@x.com", some "2024-06-01", some "2024-06-01", some "A"],
        [some "c@x.com", some "2024-06-01", some "2024-06-01", some "Cnew"]]⟩
      ⟨["EMAIL", "FIRST_OUTREACH", "LAST_OUTREACH", "COMPANY"],
       [[some "b@x.com", some "2023-01-01", some "2023-01-01", some "B"],
        [some "c@x.com", some "2023-02-02", some "2023-02-02", some "Cold"]]⟩
      ["EMAIL"] ["FIRST_OUTREACH"] ["LAST_OUTREACH", "COMPANY"]
      (some ["EMAIL"]) false) = false)
    ∧ (update_dataframe_conditionally
      ⟨["EMAIL", "FIRST_OUTREACH", "LAST_OUTREACH", "COMPANY"],
       [[some "a@x.com", some "2024-06-01", some "2024-06-01", some "A"],
        [some "c@x.com", some "2024-06-01", some "2024-06-01", some "Cnew"]]⟩
      ⟨["EMAIL", "FIRST_OUTREACH", "LAST_OUTREACH", "COMPANY"],
       [[some "b@x.com", some "2023-01-01", some "2023-01-01", some "B"],
        [some "c@x.com", some "2023-02-02", some "2023-02-02", some "Cold"]]⟩
      ["EMAIL"] ["FIRST_OUTREACH"] ["LAST_OUTREACH", "COMPANY"]
      (some ["EMAIL"]) false).rows.length = 3 := by
  refine ⟨by decide, by decide⟩

/-- C4 counterexample: reconciling a one-row table against itself returns
the table unchanged, but the row is classified into the *updated* bucket
(inner join), while the new and no-change buckets are empty — the claim
that all rows are classified "unchanged" fails. -/
theorem self_merge_classifies_as_updated :
    (update_dataframe_conditionally
        ⟨["EMAIL", "FIRST_OUTREACH", "LAST_OUTREACH"],
         [[some "a@x.com", some "2024-01-01", some "2024-02-02"]]⟩
        ⟨["EMAIL", "FIRST_OUTREACH", "LAST_OUTREACH"],
         [[some "a@x.com", some "2024-01-01", some "2024-02-02"]]⟩
        ["EMAIL"] ["FIRST_OUTREACH"] ["LAST_OUTREACH"] none false
      = ⟨["EMAIL", "FIRST_OUTREACH", "LAST_OUTREACH"],
         [[some "a@x.com", some "2024-01-01", some "2024-02-02"]]⟩)
    ∧ (no_change_data_of
        ⟨["EMAIL", "FIRST_OUTREACH", "LAST_OUTREACH"],
         [[some "a@x.com", some "2024-01-01", some "2024-02-02"]]⟩
        ⟨["EMAIL", "FIRST_OUTREACH", "LAST_OUTREACH"],
         [[some "a@x.com", some "2024-01-01", some "2024-02-02"]]⟩
        ["EMAIL"] ["FIRST_OUTREACH"] ["LAST_OUTREACH"]).rows = []
    ∧ (new_data_of
        ⟨["EMAIL", "FIRST_OUTREACH", "LAST_OUTREACH"],
         [[some "a@x.com", some "2024-01-01", some "2024-02-02"]]⟩
        ⟨["EMAIL", "FIRST_OUTREACH", "LAST_OUTREACH"],
         [[some "a@x.com", some "2024-01-01", some "2024-02-02"]]⟩
        ["EMAIL"] ["FIRST_OUTREACH"] ["LAST_OUTREACH"]).rows = []
    ∧ (update_data_of
        ⟨["EMAIL", "FIRST_OUTREACH", "LAST_OUTREACH"],
         [[some "a@x.com", some "2024-01-01", some "2024-02-02"]]⟩
        ⟨["EMAIL", "FIRST_OUTREACH", "LAST_OUTREACH"],
         [[some "a@x.com", some "2024-01-01", some "2024-02-02"]]⟩
        ["EMAIL"] ["FIRST_OUTREACH"] ["LAST_OUTREACH"]).rows
      = [[some "a@x.com", some "2024-01-01", some "2024-02-02"]] := by
  refine ⟨by decide, by decide, by decide, by decide⟩

/-- Witness for C1 at a concrete reconciliation: new keys a and c,
original keys b and c. -/
theorem reconcile_row_count_witness :
    WfCols ["K"] ["F"] ["U", "V"]
    ∧ WfRows ["K"] ["F"] ["U", "V"]
        [⟨["a"], ["fa"], ["ua", "va"]⟩, ⟨["c"], ["fn"], ["un", "vn"]⟩]
    ∧ WfRows ["K"] ["F"] ["U", "V"]
        [⟨["b"], ["fb"], ["ub", "vb"]⟩, ⟨["c"], ["fo"], ["uo", "vo"]⟩]
    ∧ UniqueKeys [⟨["a"], ["fa"], ["ua", "va"]⟩, ⟨["c"], ["fn"], ["un", "vn"]⟩]
    ∧ UniqueKeys [⟨["b"], ["fb"], ["ub", "vb"]⟩, ⟨["c"], ["fo"], ["uo", "vo"]⟩]
    ∧ ((update_dataframe_conditionally (mkTable ["K"] ["F"] ["U", "V"]
        [⟨["a"], ["fa"], ["ua", "va"]⟩, ⟨["c"], ["fn"], ["un", "vn"]⟩])
        (mkTable ["K"] ["F"] ["U", "V"]
        [⟨["b"], ["fb"], ["ub", "vb"]⟩, ⟨["c"], ["fo"], ["uo", "vo"]⟩])
        ["K"] ["F"] ["U", "V"] (some ["K"]) false).rows.length
        = (([⟨["a"], ["fa"], ["ua", "va"]⟩, ⟨["c"], ["fn"], ["un", "vn"]⟩] : List ARow).filter
            (fun nt => keyAbsent [⟨["b"], ["fb"], ["ub", "vb"]⟩, ⟨["c"], ["fo"], ["uo", "vo"]⟩] nt.key)).length
          + (([⟨["b"], ["fb"], ["ub", "vb"]⟩, ⟨["c"], ["fo"], ["uo", "vo"]⟩] : List ARow).filter
            (fun ot => keyAbsent [⟨["a"], ["fa"], ["ua", "va"]⟩, ⟨["c"], ["fn"], ["un", "vn"]⟩] ot.key)).length
          + (([⟨["a"], ["fa"], ["ua", "va"]⟩, ⟨["c"], ["fn"], ["un", "vn"]⟩] : List ARow).filter
            (fun nt => !(keyAbsent [⟨["b"], ["fb"], ["ub", "vb"]⟩, ⟨["c"], ["fo"], ["uo", "vo"]⟩] nt.key))).length
      ∧ List.Pairwise (fun r1 r2 =>
          rowKey ["K"] (update_dataframe_conditionally (mkTable ["K"] ["F"] ["U", "V"]
        [⟨["a"], ["fa"], ["ua", "va"]⟩, ⟨["c"], ["fn"], ["un", "vn"]⟩])
        (mkTable ["K"] ["F"] ["U", "V"]
        [⟨["b"], ["fb"], ["ub", "vb"]⟩, ⟨["c"], ["fo"], ["uo", "vo"]⟩])
        ["K"] ["F"] ["U", "V"] (some ["K"]) false).cols r1
            ≠ rowKey ["K"] (update_dataframe_conditionally (mkTable ["K"] ["F"] ["U", "V"]
        [⟨["a"], ["fa"], ["ua", "va"]⟩, ⟨["c"], ["fn"], ["un", "vn"]⟩])
        (mkTable ["K"] ["F"] ["U", "V"]
        [⟨["b"], ["fb"], ["ub", "vb"]⟩, ⟨["c"], ["fo"], ["uo", "vo"]⟩])
        ["K"] ["F"] ["U", "V"] (some ["K"]) false).cols r2)
          (update_dataframe_conditionally (mkTable ["K"] ["F"] ["U", "V"]
        [⟨["a"], ["fa"], ["ua", "va"]⟩, ⟨["c"], ["fn"], ["un", "vn"]⟩])
        (mkTable ["K"] ["F"] ["U", "V"]
        [⟨["b"], ["fb"], ["ub", "vb"]⟩, ⟨["c"], ["fo"], ["uo", "vo"]⟩])
        ["K"] ["F"] ["U", "V"] (some ["K"]) false).rows) :=
  ⟨by decide, by decide, by decide, by decide, by decide,
   reconcile_row_count_and_distinct_keys ["K"] ["F"] ["U", "V"]
     [⟨["a"], ["fa"], ["ua", "va"]⟩, ⟨["c"], ["fn"], ["un", "vn"]⟩]
     [⟨["b"], ["fb"], ["ub", "vb"]⟩, ⟨["c"], ["fo"], ["uo", "vo"]⟩]
     (some ["K"]) false (by decide) (by decide) (by decide) (by decide)
     (by decide)⟩

/-- Witness for C2 at the overlap key c of the same concrete
reconciliation. -/
theorem overlap_preserves_fixed_witness :
    WfCols ["K"] ["F"] ["U", "V"]
    ∧ (⟨["c"], ["fn"], ["un", "vn"]⟩ : ARow) ∈ ([⟨["a"], ["fa"], ["ua", "va"]⟩, ⟨["c"], ["fn"], ["un", "vn"]⟩] : List ARow)
    ∧ (⟨["c"], ["fo"], ["uo", "vo"]⟩ : ARow) ∈ ([⟨["b"], ["fb"], ["ub", "vb"]⟩, ⟨["c"], ["fo"], ["uo", "vo"]⟩] : List ARow)
    ∧ (⟨["c"], ["fn"], ["un", "vn"]⟩ : ARow).key = (⟨["c"], ["fo"], ["uo", "vo"]⟩ : ARow).key
    ∧ ((∃ row ∈ (update_dataframe_conditionally (mkTable ["K"] ["F"] ["U", "V"]
        [⟨["a"], ["fa"], ["ua", "va"]⟩, ⟨["c"], ["fn"], ["un", "vn"]⟩])
        (mkTable ["K"] ["F"] ["U", "V"]
        [⟨["b"], ["fb"], ["ub", "vb"]⟩, ⟨["c"], ["fo"], ["uo", "vo"]⟩])
        ["K"] ["F"] ["U", "V"] (some ["K"]) false).rows,
        rowKey ["K"] (update_dataframe_conditionally (mkTable ["K"] ["F"] ["U", "V"]
        [⟨["a"], ["fa"], ["ua", "va"]⟩, ⟨["c"], ["fn"], ["un", "vn"]⟩])
        (mkTable ["K"] ["F"] ["U", "V"]
        [⟨["b"], ["fb"], ["ub", "vb"]⟩, ⟨["c"], ["fo"], ["uo", "vo"]⟩])
        ["K"] ["F"] ["U", "V"] (some ["K"]) false).cols row = (⟨["c"], ["fo"], ["uo", "vo"]⟩ : ARow).key.map some)
      ∧ ∀ row ∈ (update_dataframe_conditionally (mkTable ["K"] ["F"] ["U", "V"]
        [⟨["a"], ["fa"], ["ua", "va"]⟩, ⟨["c"], ["fn"], ["un", "vn"]⟩])
        (mkTable ["K"] ["F"] ["U", "V"]
        [⟨["b"], ["fb"], ["ub", "vb"]⟩, ⟨["c"], ["fo"], ["uo", "vo"]⟩])
        ["K"] ["F"] ["U", "V"] (some ["K"]) false).rows,
        rowKey ["K"] (update_dataframe_conditionally (mkTable ["K"] ["F"] ["U", "V"]
        [⟨["a"], ["fa"], ["ua", "va"]⟩, ⟨["c"], ["fn"], ["un", "vn"]⟩])
        (mkTable ["K"] ["F"] ["U", "V"]
        [⟨["b"], ["fb"], ["ub", "vb"]⟩, ⟨["c"], ["fo"], ["uo", "vo"]⟩])
        ["K"] ["F"] ["U", "V"] (some ["K"]) false).cols row = (⟨["c"], ["fo"], ["uo", "vo"]⟩ : ARow).key.map some →
        ∀ c ∈ ["F"],
          cellAt (update_dataframe_conditionally (mkTable ["K"] ["F"] ["U", "V"]
        [⟨["a"], ["fa"], ["ua", "va"]⟩, ⟨["c"], ["fn"], ["un", "vn"]⟩])
        (mkTable ["K"] ["F"] ["U", "V"]
        [⟨["b"], ["fb"], ["ub", "vb"]⟩, ⟨["c"], ["fo"], ["uo", "vo"]⟩])
        ["K"] ["F"] ["U", "V"] (some ["K"]) false).cols row c
          = cellAt (mkTable ["K"] ["F"] ["U", "V"]
              [⟨["b"], ["fb"], ["ub", "vb"]⟩, ⟨["c"], ["fo"], ["uo", "vo"]⟩]).cols (ARow.toRow ⟨["c"], ["fo"], ["uo", "vo"]⟩) c) :=
  ⟨by decide, by decide, by decide, by decide,
   overlap_preserves_fixed_columns ["K"] ["F"] ["U", "V"]
     [⟨["a"], ["fa"], ["ua", "va"]⟩, ⟨["c"], ["fn"], ["un", "vn"]⟩]
     [⟨["b"], ["fb"], ["ub", "vb"]⟩, ⟨["c"], ["fo"], ["uo", "vo"]⟩]
     (some ["K"]) false (by decide) (by decide) (by decide) (by decide)
     (by decide) ⟨["c"], ["fn"], ["un", "vn"]⟩ ⟨["c"], ["fo"], ["uo", "vo"]⟩ (by decide) (by decide) (by decide)⟩

/-- Witness for C3 at the overlap key c of the same concrete
reconciliation. -/
theorem overlap_overwrites_update_witness :
    WfCols ["K"] ["F"] ["U", "V"]
    ∧ (⟨["c"], ["fn"], ["un", "vn"]⟩ : ARow) ∈ ([⟨["a"], ["fa"], ["ua", "va"]⟩, ⟨["c"], ["fn"], ["un", "vn"]⟩] : List ARow)
    ∧ (⟨["c"], ["fo"], ["uo", "vo"]⟩ : ARow) ∈ ([⟨["b"], ["fb"], ["ub", "vb"]⟩, ⟨["c"], ["fo"], ["uo", "vo"]⟩] : List ARow)
    ∧ (⟨["c"], ["fn"], ["un", "vn"]⟩ : ARow).key = (⟨["c"], ["fo"], ["uo", "vo"]⟩ : ARow).key
    ∧ ((∃ row ∈ (update_dataframe_conditionally (mkTable ["K"] ["F"] ["U", "V"]
        [⟨["a"], ["fa"], ["ua", "va"]⟩, ⟨["c"], ["fn"], ["un", "vn"]⟩])
        (mkTable ["K"] ["F"] ["U", "V"]
        [⟨["b"], ["fb"], ["ub", "vb"]⟩, ⟨["c"], ["fo"], ["uo", "vo"]⟩])
        ["K"] ["F"] ["U", "V"] (some ["K"]) false).rows,
        rowKey ["K"] (update_dataframe_conditionally (mkTable ["K"] ["F"] ["U", "V"]
        [⟨["a"], ["fa"], ["ua", "va"]⟩, ⟨["c"], ["fn"], ["un", "vn"]⟩])
        (mkTable ["K"] ["F"] ["U", "V"]
        [⟨["b"], ["fb"], ["ub", "vb"]⟩, ⟨["c"], ["fo"], ["uo", "vo"]⟩])
        ["K"] ["F"] ["U", "V"] (some ["K"]) false).cols row = (⟨["c"], ["fn"], ["un", "vn"]⟩ : ARow).key.map some)
      ∧ ∀ row ∈ (update_dataframe_conditionally (mkTable ["K"] ["F"] ["U", "V"]
        [⟨["a"], ["fa"], ["ua", "va"]⟩, ⟨["c"], ["fn"], ["un", "vn"]⟩])
        (mkTable ["K"] ["F"] ["U", "V"]
        [⟨["b"], ["fb"], ["ub", "vb"]⟩, ⟨["c"], ["fo"], ["uo", "vo"]⟩])
        ["K"] ["F"] ["U", "V"] (some ["K"]) false).rows,
        rowKey ["K"] (update_dataframe_conditionally (mkTable ["K"] ["F"] ["U", "V"]
        [⟨["a"], ["fa"], ["ua", "va"]⟩, ⟨["c"], ["fn"], ["un", "vn"]⟩])
        (mkTable ["K"] ["F"] ["U", "V"]
        [⟨["b"], ["fb"], ["ub", "vb"]⟩, ⟨["c"], ["fo"], ["uo", "vo"]⟩])
        ["K"] ["F"] ["U", "V"] (some ["K"]) false).cols row = (⟨["c"], ["fn"], ["un", "vn"]⟩ : ARow).key.map some →
        ∀ c ∈ ["U", "V"],
          cellAt (update_dataframe_conditionally (mkTable ["K"] ["F"] ["U", "V"]
        [⟨["a"], ["fa"], ["ua", "va"]⟩, ⟨["c"], ["fn"], ["un", "vn"]⟩])
        (mkTable ["K"] ["F"] ["U", "V"]
        [⟨["b"], ["fb"], ["ub", "vb"]⟩, ⟨["c"], ["fo"], ["uo", "vo"]⟩])
        ["K"] ["F"] ["U", "V"] (some ["K"]) false).cols row c
          = cellAt (mkTable ["K"] ["F"] ["U", "V"]
              [⟨["a"], ["fa"], ["ua", "va"]⟩, ⟨["c"], ["fn"], ["un", "vn"]⟩]).cols (ARow.toRow ⟨["c"], ["fn"], ["un", "vn"]⟩) c) :=
  ⟨by decide, by decide, by decide, by decide,
   overlap_overwrites_update_columns ["K"] ["F"] ["U", "V"]
     [⟨["a"], ["fa"], ["ua", "va"]⟩, ⟨["c"], ["fn"], ["un", "vn"]⟩]
     [⟨["b"], ["fb"], ["ub", "vb"]⟩, ⟨["c"], ["fo"], ["uo", "vo"]⟩]
     (some ["K"]) false (by decide) (by decide) (by decide) (by decide)
     (by decide) ⟨["c"], ["fn"], ["un", "vn"]⟩ ⟨["c"], ["fo"], ["uo", "vo"]⟩ (by decide) (by decide) (by decide)⟩

/-- Witness for the amended C4 at a concrete two-row table. -/
theorem self_reconcile_witness :
    WfCols ["K"] ["F"] ["U", "V"]
    ∧ WfRows ["K"] ["F"] ["U", "V"]
        [⟨["b"], ["fb"], ["ub", "vb"]⟩, ⟨["c"], ["fo"], ["uo", "vo"]⟩]
    ∧ UniqueKeys [⟨["b"], ["fb"], ["ub", "vb"]⟩, ⟨["c"], ["fo"], ["uo", "vo"]⟩]
    ∧ (update_dataframe_conditionally (mkTable ["K"] ["F"] ["U", "V"]
        [⟨["b"], ["fb"], ["ub", "vb"]⟩, ⟨["c"], ["fo"], ["uo", "vo"]⟩])
        (mkTable ["K"] ["F"] ["U", "V"]
        [⟨["b"], ["fb"], ["ub", "vb"]⟩, ⟨["c"], ["fo"], ["uo", "vo"]⟩])
        ["K"] ["F"] ["U", "V"] (some ["K"]) false = mkTable ["K"] ["F"] ["U", "V"]
        [⟨["b"], ["fb"], ["ub", "vb"]⟩, ⟨["c"], ["fo"], ["uo", "vo"]⟩]
      ∧ (new_data_of (mkTable ["K"] ["F"] ["U", "V"]
          [⟨["b"], ["fb"], ["ub", "vb"]⟩, ⟨["c"], ["fo"], ["uo", "vo"]⟩]) (mkTable ["K"] ["F"] ["U", "V"]
          [⟨["b"], ["fb"], ["ub", "vb"]⟩, ⟨["c"], ["fo"], ["uo", "vo"]⟩]) ["K"] ["F"] ["U", "V"]).rows = []
      ∧ (no_change_data_of (mkTable ["K"] ["F"] ["U", "V"]
          [⟨["b"], ["fb"], ["ub", "vb"]⟩, ⟨["c"], ["fo"], ["uo", "vo"]⟩]) (mkTable ["K"] ["F"] ["U", "V"]
          [⟨["b"], ["fb"], ["ub", "vb"]⟩, ⟨["c"], ["fo"], ["uo", "vo"]⟩]) ["K"] ["F"] ["U", "V"]).rows = []
      ∧ (update_data_of (mkTable ["K"] ["F"] ["U", "V"]
          [⟨["b"], ["fb"], ["ub", "vb"]⟩, ⟨["c"], ["fo"], ["uo", "vo"]⟩]) (mkTable ["K"] ["F"] ["U", "V"]
          [⟨["b"], ["fb"], ["ub", "vb"]⟩, ⟨["c"], ["fo"], ["uo", "vo"]⟩]) ["K"] ["F"] ["U", "V"]).rows
        = (mkTable ["K"] ["F"] ["U", "V"]
          [⟨["b"], ["fb"], ["ub", "vb"]⟩, ⟨["c"], ["fo"], ["uo", "vo"]⟩]).rows) :=
  ⟨by decide, by decide, by decide,
   self_reconcile_identity_via_updated_bucket ["K"] ["F"] ["U", "V"]
     [⟨["b"], ["fb"], ["ub", "vb"]⟩, ⟨["c"], ["fo"], ["uo", "vo"]⟩]
     (some ["K"]) false (by decide) (by decide) (by decide)⟩

end Jmail
